import Mathlib

/-!
Shallow embedding of the clangd MCP server (TypeScript sources):
file-tracker.ts (FileTracker), index.ts (tool-call handler, validateToolArgs,
ensureClangdInitialized, startCompileCommandsWatcher), config-detector.ts
(parseShellArgs, generateClangdArgs), cmake-detector.ts (detectCMakeSources),
tools/workspace-symbol.ts (workspaceSymbolSearch).

JavaScript `Map`s are embedded as insertion-ordered association lists (a `Map`
iterates in insertion order and holds at most one entry per key); machine
timestamps are `Nat`; fallible operations take an explicit success flag or
return `Except`. Concurrent code is embedded as a small-step machine over the
suspension points of the event loop: the code between two `await`s runs
atomically, and a schedule picks which suspended caller resumes next.
-/

namespace ClangdMcp

/-! ## Association-list embedding of JavaScript Map -/

/-- Lookup in an insertion-ordered association list (`Map.get`): the value
of the first entry carrying the key. -/
def alistFind {β : Type} : List (String × β) → String → Option β
  | [], _ => none
  | p :: t, k => if p.1 == k then some p.2 else alistFind t k

/-- `Map.delete`: a `Map` holds at most one entry per key, so deleting a key
removes every entry carrying it. -/
def alistDelete {β : Type} : List (String × β) → String → List (String × β)
  | [], _ => []
  | p :: t, k => if p.1 == k then alistDelete t k else p :: alistDelete t k

/-! ## FileTracker (file-tracker.ts) with the DiagnosticsCache hook -/

/-- `FileTracker.openFiles`: URI to last-access timestamp. -/
abbrev OpenMap := List (String × Nat)

/-- `FileTracker.maxOpenFiles`: maximum number of files kept open. -/
def maxOpenFiles : Nat := 100

/-- Timestamp recorded for `uri`, if the file is open. -/
def lookupTime (m : OpenMap) (uri : String) : Option Nat :=
  alistFind m uri

/-- `Map.set` on a key that is already present: the value is updated in
place and the entry keeps its iteration position. -/
def setTime : OpenMap → String → Nat → OpenMap
  | [], _, _ => []
  | p :: rest, uri, t =>
    if p.1 == uri then (p.1, t) :: setTime rest uri t
    else p :: setTime rest uri t

/-- The loop body of `FileTracker.evictLRU`: starting from candidate `q`,
scan the remaining entries, replacing the candidate only on a strictly
smaller timestamp (`if (time < oldestTime)`). -/
def oldestFrom (q : String × Nat) : OpenMap → String × Nat
  | [] => q
  | p :: rest => if p.2 < q.2 then oldestFrom p rest else oldestFrom q rest

/-- The scan of `FileTracker.evictLRU`: `oldestTime` starts at `Infinity`,
so the first entry always becomes the first candidate; afterwards the
candidate changes only on a strictly smaller timestamp. The result is the
first entry, in map iteration order, holding the minimal timestamp. -/
def oldestEntry : OpenMap → Option (String × Nat)
  | [] => none
  | p :: rest => some (oldestFrom p rest)

/-- A notification sent to the clangd subprocess over the LSP transport. -/
inductive LspNote where
  | didOpen (uri : String)
  | didClose (uri : String)
deriving DecidableEq, Repr

/-- Diagnostics cache contents: file URI to its latest list of diagnostic
records (the records themselves are abstracted to numbers). -/
abbrev DiagMap := List (String × List Nat)

/-- `DiagnosticsCache.clearForFile`: remove the entry for `uri`. -/
def clearForFile (d : DiagMap) (uri : String) : DiagMap :=
  alistDelete d uri

/-- Latest cached diagnostics for `uri`, if any. -/
def diagLookup (d : DiagMap) (uri : String) : Option (List Nat) :=
  alistFind d uri

/-- Combined state of the `FileTracker`, the `DiagnosticsCache` hooked to it
through `onFileClosed` (index.ts lines 229-234), and the trace of
notifications sent to the subprocess. -/
structure Bridge where
  openFiles : OpenMap
  diags : DiagMap
  notes : List LspNote
deriving Repr

/-- The state right after initialization: nothing open, nothing cached. -/
def initialBridge : Bridge := ⟨[], [], []⟩

/-- `FileTracker.evictLRU` with the registered `onFileClosed` callback
inlined: send `didClose` for the oldest entry, delete its tracker entry,
clear its diagnostics. On an empty map nothing happens. -/
def evictLRU (b : Bridge) : Bridge :=
  match oldestEntry b.openFiles with
  | none => b
  | some e =>
    { openFiles := alistDelete b.openFiles e.1
      diags := clearForFile b.diags e.1
      notes := b.notes ++ [.didClose e.1] }

/-- `FileTracker.ensureFileOpen` under sequential execution (the in-flight
set is empty between calls; its behaviour under interleaving is the subject
of the `OpenFlight` machine below). `uri` is the normalized URI of the
requested path (`normalizeToUri` lives in utils/uri.ts), `now` is
`Date.now()`, and `readOk` tells whether `readFile` succeeds; on a failed
read `openFile` throws before any `didOpen` is sent. -/
def ensureFileOpen (b : Bridge) (uri : String) (now : Nat) (readOk : Bool) : Bridge :=
  if (lookupTime b.openFiles uri).isSome then
    { b with openFiles := setTime b.openFiles uri now }
  else
    let b1 := if maxOpenFiles ≤ b.openFiles.length then evictLRU b else b
    if readOk then
      { b1 with
          openFiles := b1.openFiles ++ [(uri, now)]
          notes := b1.notes ++ [.didOpen uri] }
    else b1

/-- `FileTracker.closeFile` with the `onFileClosed` callback inlined; a file
that is not open is left alone. -/
def closeFile (b : Bridge) (uri : String) : Bridge :=
  if (lookupTime b.openFiles uri).isSome then
    { openFiles := alistDelete b.openFiles uri
      diags := clearForFile b.diags uri
      notes := b.notes ++ [.didClose uri] }
  else b

/-- `FileTracker.closeAll`: send `didClose` and invoke the callback for
every open file, then clear the map. -/
def closeAll (b : Bridge) : Bridge :=
  { openFiles := []
    diags := b.openFiles.foldl (fun d p => clearForFile d p.1) b.diags
    notes := b.notes ++ b.openFiles.map (fun p => .didClose p.1) }

/-- Modelled from the spec: the `DiagnosticsCache` push handler
(tools/get-diagnostics.ts is not among the sources at hand). On a
diagnostics push the cache stores the file's latest diagnostic list,
overwriting any prior entry; per the spec's data-model invariant a
diagnostic entry exists only for a file currently in the open-document map,
so a push concerns an open document. -/
def publishDiagnostics (b : Bridge) (uri : String) (recs : List Nat) : Bridge :=
  if (lookupTime b.openFiles uri).isSome then
    { b with diags := clearForFile b.diags uri ++ [(uri, recs)] }
  else b

/-- An operation on the bridge state. -/
inductive BridgeOp where
  | ensure (uri : String) (now : Nat) (readOk : Bool)
  | close (uri : String)
  | closeAllFiles
  | publish (uri : String) (recs : List Nat)

/-- Apply one operation. -/
def applyOp (b : Bridge) : BridgeOp → Bridge
  | .ensure uri now ok => ensureFileOpen b uri now ok
  | .close uri => closeFile b uri
  | .closeAllFiles => closeAll b
  | .publish uri recs => publishDiagnostics b uri recs

/-- Run a sequence of operations from the freshly initialized state. -/
def runOps (ops : List BridgeOp) : Bridge := ops.foldl applyOp initialBridge

/-- Run a sequence of `ensureFileOpen` calls (URI, timestamp, read outcome)
from the freshly initialized state. -/
def runEnsures (calls : List (String × Nat × Bool)) : Bridge :=
  calls.foldl (fun b c => ensureFileOpen b c.1 c.2.1 c.2.2) initialBridge

/-- No diagnostics entry exists for a file absent from the open-document map. -/
def DiagsCoherent (b : Bridge) : Prop :=
  ∀ uri, (diagLookup b.diags uri).isSome → (lookupTime b.openFiles uri).isSome

/-! ## Concurrent `ensureFileOpen` for one URI (file-tracker.ts lines 727-765)

Several callers run `ensureFileOpen` for the same URI under the cooperative
event loop. Each caller is a program counter over the atomic blocks of the
source (code between two suspension points), with its `readFile` outcome
fixed up front:

* `start`  — the entry block: the already-open check, the in-flight check
  (`inFlightOpens.has`), and on fall-through `inFlightOpens.add` plus the
  start of `openFile`'s `readFile` (the first suspension).
* `waiting` — suspended inside the poll loop `while (inFlightOpens.has(uri))
  await setTimeout(10)`; each resumption re-checks the set and, once it is
  clear, re-checks `openFiles` — falling through to open the file itself if
  the in-flight open failed.
* `reading` — suspended in `readFile`; on resumption, a successful read
  sends `didOpen` and sets the `openFiles` entry in one block, a failed read
  throws before any notification.
* `postOpen` — about to run the `finally` block, which removes the URI from
  the in-flight set.
-/

/-- Program counter of one `ensureFileOpen` caller. -/
inductive OpenPC where
  | start
  | waiting
  | reading
  | postOpen
  | done
  | failed
deriving DecidableEq, Repr

/-- Shared tracker state projected to a single URI, plus the callers.
`isOpen` is membership of the URI in `openFiles`, `inFlight` its membership
in `inFlightOpens`, `didOpens` the number of `didOpen` notifications sent
for it. Each caller carries its program counter and its fixed `readFile`
outcome. -/
structure OpenFlight where
  isOpen : Bool
  inFlight : Bool
  didOpens : Nat
  callers : List (OpenPC × Bool)
deriving DecidableEq, Repr

/-- Replace caller `i`'s program counter. -/
def withPC (s : OpenFlight) (i : Nat) (pc : OpenPC) (ok : Bool) : OpenFlight :=
  { s with callers := s.callers.set i (pc, ok) }

/-- Resume caller `i` for one atomic block. -/
def openStep (s : OpenFlight) (i : Nat) : OpenFlight :=
  match s.callers.get? i with
  | none => s
  | some (pc, ok) =>
    match pc with
    | .start =>
      if s.isOpen then withPC s i .done ok
      else if s.inFlight then withPC s i .waiting ok
      else { withPC s i .reading ok with inFlight := true }
    | .waiting =>
      if s.inFlight then s
      else if s.isOpen then withPC s i .done ok
      else { withPC s i .reading ok with inFlight := true }
    | .reading =>
      if ok then
        { withPC s i .postOpen ok with isOpen := true, didOpens := s.didOpens + 1 }
      else withPC s i .postOpen ok
    | .postOpen =>
      { withPC s i (if ok then .done else .failed) ok with inFlight := false }
    | .done => s
    | .failed => s

/-- Run the machine under a schedule of caller resumptions. -/
def openRun (s : OpenFlight) (sched : List Nat) : OpenFlight :=
  sched.foldl openStep s

/-- `n` concurrent callers for a URI that is not yet open, every `readFile`
succeeding. -/
def openInit (n : Nat) : OpenFlight :=
  ⟨false, false, 0, List.replicate n (.start, true)⟩

/-- Every caller has returned successfully. -/
def OpenAllDone (s : OpenFlight) : Prop :=
  ∀ c ∈ s.callers, c.1 = OpenPC.done

instance (s : OpenFlight) : Decidable (OpenAllDone s) :=
  inferInstanceAs (Decidable (∀ c ∈ s.callers, c.1 = OpenPC.done))

/-- Number of callers currently inside the open path (holding the
in-flight marker), split by phase. -/
def readersCount (s : OpenFlight) : Nat :=
  s.callers.countP (fun c => c.1 == OpenPC.reading) +
    s.callers.countP (fun c => c.1 == OpenPC.postOpen)

/-- Machine invariant for `openInit`-reachable states (all reads succeed). -/
def OpenInv (s : OpenFlight) : Prop :=
  s.didOpens ≤ 1 ∧
  (s.isOpen = true ↔ s.didOpens = 1) ∧
  (s.inFlight = true ↔ readersCount s = 1) ∧
  readersCount s ≤ 1 ∧
  (∀ c ∈ s.callers, c.2 = true) ∧
  (∀ c ∈ s.callers, c.1 = OpenPC.reading → s.isOpen = false) ∧
  (∀ c ∈ s.callers, c.1 = OpenPC.postOpen → s.isOpen = true) ∧
  (∀ c ∈ s.callers, c.1 = OpenPC.waiting → (s.inFlight = true ∨ s.isOpen = true)) ∧
  (∀ c ∈ s.callers, c.1 = OpenPC.done → s.isOpen = true) ∧
  (∀ c ∈ s.callers, c.1 ≠ OpenPC.failed)

/-! ## Concurrent lazy initialization (index.ts lines 197-252)

`ensureClangdInitialized` under the cooperative event loop. Atomic blocks of
the source:

* `start` — the shutting-down check, the ready fast path
  (`clangdManager && clangdManager.isReady()`), the in-flight check
  (`initializationPromise`), and on fall-through the synchronous prefix of
  the async initializer, which constructs the manager and calls
  `ClangdManager.start()`; modelled from the spec, `start()` spawns the
  subprocess exactly once per call, so the spawn is counted here.
* `awaitingInit` — suspended on the shared `initializationPromise`.
* `initializing` — suspended in `await clangdManager.start()`; on resumption
  the manager reports ready.
* `indexing` — suspended in the pre-indexing of source files
  (`openSourceFiles`); on resumption the `finally` clears
  `initializationPromise`, resolving every attached caller.
-/

/-- Program counter of one `ensureClangdInitialized` caller. -/
inductive InitPC where
  | start
  | awaitingInit
  | initializing
  | indexing
  | done
  | errored
deriving DecidableEq, Repr

/-- Shared lazy-initialization state plus the callers. -/
structure InitFlight where
  ready : Bool
  initInFlight : Bool
  spawnCount : Nat
  shuttingDown : Bool
  callers : List InitPC
deriving DecidableEq, Repr

/-- Replace caller `i`'s program counter. -/
def withInitPC (s : InitFlight) (i : Nat) (pc : InitPC) : InitFlight :=
  { s with callers := s.callers.set i pc }

/-- Resume caller `i` for one atomic block (initialization succeeding). -/
def initStep (s : InitFlight) (i : Nat) : InitFlight :=
  match s.callers.get? i with
  | none => s
  | some pc =>
    match pc with
    | .start =>
      if s.shuttingDown then withInitPC s i .errored
      else if s.ready then withInitPC s i .done
      else if s.initInFlight then withInitPC s i .awaitingInit
      else { withInitPC s i .initializing with
               initInFlight := true, spawnCount := s.spawnCount + 1 }
    | .awaitingInit =>
      if s.initInFlight then s else withInitPC s i .done
    | .initializing =>
      { withInitPC s i .indexing with ready := true }
    | .indexing =>
      { withInitPC s i .done with initInFlight := false }
    | .done => s
    | .errored => s

/-- Run the machine under a schedule of caller resumptions. -/
def initRun (s : InitFlight) (sched : List Nat) : InitFlight :=
  sched.foldl initStep s

/-- `n` concurrent callers before the subprocess is ready. -/
def initStart (n : Nat) : InitFlight :=
  ⟨false, false, 0, false, List.replicate n .start⟩

/-- Every caller has returned successfully. -/
def InitAllDone (s : InitFlight) : Prop :=
  ∀ pc ∈ s.callers, pc = InitPC.done

instance (s : InitFlight) : Decidable (InitAllDone s) :=
  inferInstanceAs (Decidable (∀ pc ∈ s.callers, pc = InitPC.done))

/-- Number of callers currently driving the initialization body. -/
def initializersCount (s : InitFlight) : Nat :=
  s.callers.countP (fun pc => pc == InitPC.initializing || pc == InitPC.indexing)

/-- Machine invariant for `initStart`-reachable states. -/
def InitInv (s : InitFlight) : Prop :=
  s.spawnCount ≤ 1 ∧
  (s.spawnCount = 1 ↔ (s.initInFlight = true ∨ s.ready = true)) ∧
  (s.initInFlight = true ↔ initializersCount s = 1) ∧
  initializersCount s ≤ 1 ∧
  (∀ pc ∈ s.callers, pc = InitPC.awaitingInit → (s.initInFlight = true ∨ s.ready = true)) ∧
  (∀ pc ∈ s.callers, pc = InitPC.indexing → s.ready = true) ∧
  (∀ pc ∈ s.callers, pc = InitPC.done → s.ready = true) ∧
  (∀ pc ∈ s.callers, pc ≠ InitPC.errored) ∧
  s.shuttingDown = false

/-! ## Tool argument validation and the tool-call handler (index.ts) -/

/-- A JavaScript value as far as `validateToolArgs` can observe it. Numbers
are rationals (`Number.isInteger` becomes a denominator-one test; `NaN`
fails that test in the source and has no finite embedding, which is
harmless because every number check here requires `Number.isInteger`). -/
inductive JSVal where
  | vNull
  | vUndef
  | vBool (b : Bool)
  | vNum (q : Rat)
  | vStr (s : String)
  | vArr (elems : List JSVal)
  | vObj (fields : List (String × JSVal))

namespace JSVal

/-- JavaScript truthiness (`!x` is its negation). -/
def truthy : JSVal → Bool
  | vNull => false
  | vUndef => false
  | vBool b => b
  | vNum q => q != 0
  | vStr s => s != ""
  | vArr _ => true
  | vObj _ => true

/-- Whether `typeof x === 'object'` (true for `null` and for arrays). -/
def typeofObject : JSVal → Bool
  | vNull => true
  | vArr _ => true
  | vObj _ => true
  | _ => false

/-- Property access `x.key`; a missing property reads as `undefined`. -/
def getProp (v : JSVal) (key : String) : JSVal :=
  match v with
  | vObj fields => ((fields.find? (fun p => p.1 == key)).map (fun p => p.2)).getD vUndef
  | _ => vUndef

/-- `typeof x === 'string'`. -/
def isString : JSVal → Bool
  | vStr _ => true
  | _ => false

/-- `typeof x === 'boolean'`. -/
def isBoolean : JSVal → Bool
  | vBool _ => true
  | _ => false

/-- `Array.isArray(x)`. -/
def isArray : JSVal → Bool
  | vArr _ => true
  | _ => false

/-- `typeof x === 'number' && Number.isInteger(x) && x >= 0`. -/
def isNonNegInt : JSVal → Bool
  | vNum q => q.den == 1 && 0 ≤ q
  | _ => false

/-- `typeof x === 'number' && Number.isInteger(x) && x > 0`. -/
def isPosInt : JSVal → Bool
  | vNum q => q.den == 1 && 0 < q
  | _ => false

/-- `x !== undefined`. -/
def defined : JSVal → Bool
  | vUndef => false
  | _ => true

end JSVal

/-- `validateToolArgs` (index.ts lines 120-191), as the error it throws, if
any. The checks run in source order; an unknown tool name passes through to
be rejected by the dispatch switch. -/
def validateToolArgs (name : String) (args : JSVal) : Except String Unit :=
  if !args.truthy || !args.typeofObject then
    .error "Invalid arguments: must be an object"
  else if name == "find_definition" || name == "find_references" ||
      name == "get_hover" || name == "find_implementations" then
    if !(args.getProp "file_path").isString then
      .error "Invalid file_path: must be a string"
    else if !(args.getProp "line").isNonNegInt then
      .error "Invalid line: must be a non-negative integer"
    else if !(args.getProp "column").isNonNegInt then
      .error "Invalid column: must be a non-negative integer"
    else if name == "find_references" && (args.getProp "include_declaration").defined &&
        !(args.getProp "include_declaration").isBoolean then
      .error "Invalid include_declaration: must be a boolean"
    else .ok ()
  else if name == "workspace_symbol_search" then
    if !(args.getProp "query").isString then
      .error "Invalid query: must be a string"
    else if (args.getProp "limit").defined && !(args.getProp "limit").isPosInt then
      .error "Invalid limit: must be a positive integer"
    else if (args.getProp "include_external").defined &&
        !(args.getProp "include_external").isBoolean then
      .error "Invalid include_external: must be a boolean"
    else if (args.getProp "exclude_paths").defined &&
        !(args.getProp "exclude_paths").isArray then
      .error "Invalid exclude_paths: must be an array of strings"
    else .ok ()
  else if name == "get_document_symbols" then
    if !(args.getProp "file_path").isString then
      .error "Invalid file_path: must be a string"
    else .ok ()
  else if name == "get_diagnostics" then
    if !(args.getProp "file_path").isString then
      .error "Invalid file_path: must be a string"
    else if (args.getProp "force_refresh").defined &&
        !(args.getProp "force_refresh").isBoolean then
      .error "Invalid force_refresh: must be a boolean"
    else .ok ()
  else if name == "get_call_hierarchy" || name == "get_type_hierarchy" then
    if !(args.getProp "file_path").isString then
      .error "Invalid file_path: must be a string"
    else if !(args.getProp "line").isNonNegInt then
      .error "Invalid line: must be a non-negative integer"
    else if !(args.getProp "column").isNonNegInt then
      .error "Invalid column: must be a non-negative integer"
    else .ok ()
  else .ok ()

/-- The tools known to the dispatch switch of the handler. -/
def knownTools : List String :=
  ["find_definition", "find_references", "get_hover", "workspace_symbol_search",
   "find_implementations", "get_document_symbols", "get_diagnostics",
   "get_call_hierarchy", "get_type_hierarchy"]

/-- An observable side effect of one handler invocation. -/
inductive Effect where
  | initAttempt
  | toolRequest (name : String)
deriving DecidableEq, Repr

/-- One content item of a handler result; the error case is the
`JSON.stringify({ error: true, message })` body. -/
inductive ContentItem where
  | text (s : String)
  | errorJson (error : Bool) (message : String)
deriving DecidableEq, Repr

/-- The structured result of a handler invocation (`isError` is absent, i.e.
false, on success). -/
structure ToolCallResult where
  content : List ContentItem
  isError : Bool
deriving DecidableEq, Repr

/-- The `CallToolRequestSchema` handler (index.ts lines 480-639). The
outcomes of the two fallible awaited steps are inputs: `initOutcome` for
`ensureClangdInitialized` and `toolOutcome` for the dispatched tool call;
`diagCacheReady` mirrors the `diagnosticsCache` null check. Every throw in
the body lands in the single `catch`, which produces the structured error
payload; the effect list records what reached initialization and the
subprocess. -/
def handleBody (name : String) (args : JSVal)
    (initOutcome : Except String Unit) (toolOutcome : Except String String)
    (diagCacheReady : Bool) : Except String String × List Effect :=
  if !args.truthy then
    (.error "Missing arguments for tool call", [])
  else
    match validateToolArgs name args with
    | .error m => (.error m, [])
    | .ok _ =>
      match initOutcome with
      | .error m => (.error m, [.initAttempt])
      | .ok _ =>
        if name ∈ knownTools then
          if name == "get_diagnostics" && !diagCacheReady then
            (.error "Diagnostics cache not initialized", [.initAttempt])
          else
            match toolOutcome with
            | .ok s => (.ok s, [.initAttempt, .toolRequest name])
            | .error m => (.error m, [.initAttempt, .toolRequest name])
        else
          (.error ("Unknown tool: " ++ name), [.initAttempt])

def handleToolCall (name : String) (args : JSVal)
    (initOutcome : Except String Unit) (toolOutcome : Except String String)
    (diagCacheReady : Bool) : ToolCallResult × List Effect :=
  match handleBody name args initOutcome toolOutcome diagCacheReady with
  | (.ok s, effs) => (⟨[.text s], false⟩, effs)
  | (.error m, effs) => (⟨[.errorJson true m], true⟩, effs)

/-! ## Debounced compile_commands.json watcher (index.ts lines 78-104)

The watcher callback runs at an event's time: if the server is shutting
down it returns at once; otherwise it clears any armed timer and arms a new
one for one second later. Timer expiry is pure time passage: an armed
deadline that has been reached fires the re-index action. `clearTimeout` on
an already-fired timer is a no-op, which the flush-before-event order
reproduces. -/

/-- Let time advance to `t`: an armed deadline at or before `t` fires. The
result is the remaining armed deadline and the fired deadlines. -/
def debounceFlush (armed : Option Nat) (t : Nat) : Option Nat × List Nat :=
  match armed with
  | some d => if d ≤ t then (none, [d]) else (some d, [])
  | none => (none, [])

/-- A watcher change event at time `t`. -/
def debounceEvent (armed : Option Nat) (t : Nat) (shuttingDown : Bool) :
    Option Nat × List Nat :=
  let flushed := debounceFlush armed t
  if shuttingDown then flushed
  else (some (t + 1000), flushed.2)

/-- Process a time-ordered trace of change events, accumulating fires. -/
def debounceRun (st : Option Nat × List Nat) (evts : List (Nat × Bool)) :
    Option Nat × List Nat :=
  evts.foldl
    (fun acc e =>
      let r := debounceEvent acc.1 e.1 e.2
      (r.1, acc.2 ++ r.2))
    st

/-- Fires produced by a burst of change events (none during shutdown),
starting with no timer armed, letting the final timer expire afterwards. -/
def debounceTrace (ts : List Nat) : List Nat :=
  let r := debounceRun (none, []) (ts.map (fun t => (t, false)))
  r.2 ++ (match r.1 with | some d => [d] | none => [])

/-- Consecutive events are less than the 1000 ms debounce window apart. -/
def gapsOk : List Nat → Bool
  | [] => true
  | [_] => true
  | a :: b :: rest => decide (b < a + 1000) && gapsOk (b :: rest)

/-! ## String helpers shared by the remaining components -/

/-- JavaScript `String.prototype.startsWith`, over the character sequence. -/
def jsStartsWith (s pre : String) : Bool :=
  pre.data.isPrefixOf s.data

/-- Whether `sub` occurs inside `l`, scanning left to right. -/
def includesAux (sub : List Char) : List Char → Bool
  | [] => sub.isEmpty
  | c :: t => sub.isPrefixOf (c :: t) || includesAux sub t

/-- JavaScript `String.prototype.includes`, over the character sequence. -/
def jsIncludes (s sub : String) : Bool :=
  includesAux sub.data s.data

/-- JavaScript `String.prototype.slice(n)`, over the character sequence. -/
def jsSlice (s : String) (n : Nat) : String :=
  ⟨s.data.drop n⟩

/-! ## detectCMakeSources (cmake-detector.ts lines 348-399) -/

/-- One entry of compile_commands.json, as read by the detector. -/
structure CompileCommand where
  file : String
  directory : String
deriving DecidableEq, Repr

/-- `DEFAULT_EXCLUDE_PATHS` of cmake-detector.ts. -/
def DEFAULT_EXCLUDE_PATHS : List String :=
  ["_deps/", "third_party/", "libs/", "vendor/", "external/", "build/"]

/-- The source-file extension test `/\.(c|cc|cpp|cxx|c\+\+|m|mm)$/i`:
case-insensitively, the path ends in one of the source extensions (headers
are not in the alternation). -/
def hasSourceExt (p : String) : Bool :=
  [".c", ".cc", ".cpp", ".cxx", ".c++", ".m", ".mm"].any
    (fun e => e.data.isSuffixOf (p.data.map Char.toLower))

/-- The exclusion test of the detector loop: the path relative to the
project root starts with an excluded prefix or contains one after a
separator. -/
def isExcludedPath (projectRoot : String) (allExcludes : List String)
    (filePath : String) : Bool :=
  let relativePath := jsSlice filePath (projectRoot.length + 1)
  allExcludes.any (fun exc =>
    jsStartsWith relativePath exc || jsIncludes relativePath ("/" ++ exc))

/-- The body of the detector loop for one compile command: resolve the
path, skip entries outside the project root, excluded ones, and non-source
extensions, and add the survivor to the `Set` (an insertion-ordered
deduplicating accumulator). -/
def detectStep (projectRoot : String) (allExcludes : List String)
    (resolvePath : String → String → String) (sources : List String)
    (cmd : CompileCommand) : List String :=
  let filePath :=
    if jsStartsWith cmd.file "/" then cmd.file
    else resolvePath cmd.directory cmd.file
  if !(jsStartsWith filePath projectRoot) then sources
  else if isExcludedPath projectRoot allExcludes filePath then sources
  else if hasSourceExt filePath then
    if filePath ∈ sources then sources else sources ++ [filePath]
  else sources

/-- `detectCMakeSources`. `resolvePath` stands for node's `path.resolve`
applied to the entry's directory and relative file (always producing an
absolute path); `commandsData` is `none` when compile_commands.json is
missing, unreadable, or fails to parse — every one of those paths returns
the empty list in the source. -/
def detectCMakeSources (projectRoot : String) (excludePaths : List String)
    (resolvePath : String → String → String)
    (commandsData : Option (List CompileCommand)) : List String :=
  let allExcludes := DEFAULT_EXCLUDE_PATHS ++ excludePaths
  match commandsData with
  | none => []
  | some commands =>
    commands.foldl (detectStep projectRoot allExcludes resolvePath) []

/-! ## workspaceSymbolSearch (tools/workspace-symbol.ts lines 32-111) -/

/-- A symbol as returned by the `workspace/symbol` request, with the
location's start position flattened in. -/
structure SymbolInformation where
  name : String
  kind : Nat
  uri : String
  line : Nat
  character : Nat
  containerName : Option String
deriving DecidableEq, Repr

/-- One formatted entry of the result payload. -/
structure FormattedSymbol where
  name : String
  kind : String
  file : String
  line : Nat
  column : Nat
  container : Option String
  uri : String
deriving DecidableEq, Repr

/-- `WorkspaceSymbolOptions`; `none` fields take the destructuring defaults
`limit = 100`, `includeExternal = false`, `excludePaths = []`. -/
structure WorkspaceSymbolOptions where
  query : String
  limit : Option Nat
  includeExternal : Option Bool
  excludePaths : Option (List String)
deriving DecidableEq, Repr

/-- The JSON payload returned by the search, structurally. -/
inductive WSResult where
  | notFound (message : String)
  | results (count : Nat) (returned : Nat) (truncated : Bool)
      (symbols : List FormattedSymbol)
deriving DecidableEq, Repr

/-- The project-root filter: applied unless `includeExternal` is set or
`projectRoot` is falsy (the empty string). `u2p` is `uriToPath` from
utils/uri.ts. -/
def projectFiltered (u2p : String → String) (projectRoot : String)
    (includeExternal : Bool) (symbols : List SymbolInformation) :
    List SymbolInformation :=
  if !includeExternal && projectRoot != "" then
    symbols.filter (fun sym => jsStartsWith (u2p sym.uri) projectRoot)
  else symbols

/-- The exclude-paths filter: a symbol survives when no exclude path
matches; an absolute exclude is a path prefix, a relative one is checked
against the path relative to the project root. -/
def excludeFiltered (u2p : String → String) (projectRoot : String)
    (excludePaths : List String) (symbols : List SymbolInformation) :
    List SymbolInformation :=
  if 0 < excludePaths.length then
    symbols.filter (fun sym =>
      let filePath := u2p sym.uri
      !(excludePaths.any (fun ep =>
        if jsStartsWith ep "/" then jsStartsWith filePath ep
        else
          let relativePath := jsSlice filePath (projectRoot.length + 1)
          jsStartsWith relativePath ep || jsIncludes relativePath ("/" ++ ep))))
  else symbols

/-- Formatting of one surviving symbol; `kindName` is the
`symbolKindNames` table from utils/lsp-types.ts. -/
def formatSymbol (u2p : String → String) (kindName : Nat → Option String)
    (sym : SymbolInformation) : FormattedSymbol :=
  { name := sym.name
    kind := (kindName sym.kind).getD ("Unknown(" ++ toString sym.kind ++ ")")
    file := u2p sym.uri
    line := sym.line
    column := sym.character
    container := sym.containerName
    uri := sym.uri }

/-- `workspaceSymbolSearch`, given the symbol list the retried
`workspace/symbol` request produced. -/
def workspaceSymbolSearch (u2p : String → String) (kindName : Nat → Option String)
    (projectRoot : String) (opts : WorkspaceSymbolOptions)
    (symbols : List SymbolInformation) : WSResult :=
  let limit := opts.limit.getD 100
  let includeExternal := opts.includeExternal.getD false
  let excludePaths := opts.excludePaths.getD []
  let f1 := projectFiltered u2p projectRoot includeExternal symbols
  let f2 := excludeFiltered u2p projectRoot excludePaths f1
  if f2.length = 0 then
    let filterInfo :=
      if !includeExternal then " in project '" ++ projectRoot ++ "'" else ""
    let excludeInfo :=
      if 0 < excludePaths.length then
        " (excluding: " ++ String.intercalate ", " excludePaths ++ ")"
      else ""
    .notFound ("No symbols found matching '" ++ opts.query ++ "'" ++
      filterInfo ++ excludeInfo)
  else
    let limited := f2.take limit
    .results f2.length limited.length (decide (limit < f2.length))
      (limited.map (formatSymbol u2p kindName))

/-! ## parseShellArgs and generateClangdArgs (config-detector.ts) -/

/-- The single-quote character. -/
def singleQuoteChar : Char := Char.ofNat 39

/-- The double-quote character. -/
def doubleQuoteChar : Char := Char.ofNat 34

/-- The backslash character. -/
def backslashChar : Char := Char.ofNat 92

/-- Parser state of `parseShellArgs` (config-detector.ts lines 187-234). -/
structure ShellParseState where
  args : List String
  current : String
  inSingleQuote : Bool
  inDoubleQuote : Bool
  escaped : Bool
deriving DecidableEq, Repr

/-- One iteration of the character loop of `parseShellArgs`. -/
def shellStep (st : ShellParseState) (char : Char) : ShellParseState :=
  if st.escaped then
    { st with current := st.current.push char, escaped := false }
  else if char == backslashChar && (st.inDoubleQuote || !st.inSingleQuote) then
    { st with escaped := true }
  else if char == singleQuoteChar && !st.inDoubleQuote then
    { st with inSingleQuote := !st.inSingleQuote }
  else if char == doubleQuoteChar && !st.inSingleQuote then
    { st with inDoubleQuote := !st.inDoubleQuote }
  else if char == ' ' && !st.inSingleQuote && !st.inDoubleQuote then
    if 0 < st.current.length then
      { st with args := st.args ++ [st.current], current := "" }
    else st
  else
    { st with current := st.current.push char }

/-- `parseShellArgs`: run the loop, then push the trailing argument. -/
def parseShellArgs (input : String) : List String :=
  let st := input.data.foldl shellStep ⟨[], "", false, false, false⟩
  if 0 < st.current.length then st.args ++ [st.current] else st.args

/-- Node's `path.dirname`, for the `--compile-commands-dir` argument. -/
def dirnameStr (p : String) : String :=
  let parts := p.splitOn "/"
  if parts.length ≤ 1 then "." else String.intercalate "/" parts.dropLast

/-- One conditional default of `generateClangdArgs`: append `d` unless some
argument already starts with the flag prefix `pre`. -/
def addDefault (args : List String) (pre d : String) : List String :=
  if args.any (fun a => jsStartsWith a pre) then args else args ++ [d]

/-- `process.env.CLANGD_LOG_LEVEL || 'error'`. -/
def effectiveLogLevel (clangdLogLevelEnv : Option String) : String :=
  match clangdLogLevelEnv with
  | some s => if s == "" then "error" else s
  | none => "error"

/-- `generateClangdArgs` (config-detector.ts lines 239-292). The Chromium
branch only logs a remote-index suggestion and appends nothing. -/
def generateClangdArgs (isChromiumProject : Bool)
    (compileCommandsPath : Option String) (clangdArgsEnv : Option String)
    (clangdLogLevelEnv : Option String) : List String :=
  let args : List String :=
    match clangdArgsEnv with
    | some s => if s == "" then [] else parseShellArgs s
    | none => []
  let args :=
    match compileCommandsPath with
    | some p => args ++ ["--compile-commands-dir=" ++ dirnameStr p]
    | none => args
  let args := addDefault args "--background-index" "--background-index=false"
  let args := addDefault args "--limit-references" "--limit-references=1000"
  let args := addDefault args "--limit-results" "--limit-results=1000"
  let args := addDefault args "--pch-storage" "--pch-storage=memory"
  let args := addDefault args "--clang-tidy" "--clang-tidy=false"
  addDefault args "--log" ("--log=" ++ effectiveLogLevel clangdLogLevelEnv)

/-- The six flag-prefix/default pairs appended by `generateClangdArgs`. -/
def defaultArgPairs (logLevel : String) : List (String × String) :=
  [("--background-index", "--background-index=false"),
   ("--limit-references", "--limit-references=1000"),
   ("--limit-results", "--limit-results=1000"),
   ("--pch-storage", "--pch-storage=memory"),
   ("--clang-tidy", "--clang-tidy=false"),
   ("--log", "--log=" ++ logLevel)]

/-- The arguments `CLANGD_ARGS` contributes. -/
def userArgs (clangdArgsEnv : Option String) : List String :=
  match clangdArgsEnv with
  | some s => if s == "" then [] else parseShellArgs s
  | none => []

/-- The `--compile-commands-dir` argument contributed when a
compile_commands.json was found. -/
def ccDirArgs (compileCommandsPath : Option String) : List String :=
  match compileCommandsPath with
  | some p => ["--compile-commands-dir=" ++ dirnameStr p]
  | none => []

/-- The conditional-default section of `generateClangdArgs`, as a fold of
`addDefault` over the flag/default pairs in source order. -/
def addDefaults (args : List String) (pairs : List (String × String)) : List String :=
  pairs.foldl (fun args pd => addDefault args pd.1 pd.2) args

/-! ## Lemmas: association lists -/

theorem alistFind_delete_self {β : Type} (m : List (String × β)) (k : String) :
    alistFind (alistDelete m k) k = none := by
  induction m with
  | nil => rfl
  | cons p t ih =>
    by_cases h : p.1 == k
    · simp only [alistDelete, h, if_true]
      exact ih
    · simp only [alistDelete, h, if_false, alistFind]
      exact ih

theorem alistFind_delete_ne {β : Type} (m : List (String × β)) (k k' : String)
    (h : k' ≠ k) : alistFind (alistDelete m k) k' = alistFind m k' := by
  induction m with
  | nil => rfl
  | cons p t ih =>
    by_cases hp : p.1 == k
    · have hpk : p.1 = k := by simpa using hp
      have hne : (p.1 == k') = false := by
        simp only [beq_eq_false_iff_ne, ne_eq, hpk]
        exact fun hk => h hk.symm
      simp only [alistDelete, hp, if_true, alistFind, hne, if_false]
      exact ih
    · simp only [alistDelete, hp, if_false, alistFind]
      by_cases hq : p.1 == k'
      · simp only [hq, if_true]
      · simp only [hq, if_false]
        exact ih

theorem isSome_alistFind_append_left {β : Type} (m l : List (String × β)) (k : String)
    (h : (alistFind m k).isSome = true) : (alistFind (m ++ l) k).isSome = true := by
  induction m with
  | nil => simp [alistFind] at h
  | cons p t ih =>
    by_cases hp : p.1 == k
    · simp [alistFind, hp]
    · simp only [alistFind, hp, if_false, List.cons_append] at h ⊢
      exact ih h

theorem isSome_alistFind_setTime (m : OpenMap) (u : String) (t : Nat) (v : String) :
    (alistFind (setTime m u t) v).isSome = (alistFind m v).isSome := by
  induction m with
  | nil => rfl
  | cons p rest ih =>
    by_cases hp : p.1 == u
    · by_cases hv : p.1 == v
      · simp [setTime, alistFind, hp, hv]
      · simp only [setTime, hp, if_true, alistFind, hv, if_false]
        exact ih
    · by_cases hv : p.1 == v
      · simp [setTime, alistFind, hp, hv]
      · simp only [setTime, hp, if_false, alistFind, hv]
        exact ih

theorem alistDelete_length_le {β : Type} (m : List (String × β)) (k : String) :
    (alistDelete m k).length ≤ m.length := by
  induction m with
  | nil => exact Nat.le_refl _
  | cons p t ih =>
    by_cases hp : p.1 == k
    · simp only [alistDelete, hp, if_true, List.length_cons]
      exact Nat.le_succ_of_le ih
    · simp only [alistDelete, hp, if_false, List.length_cons]
      exact Nat.succ_le_succ ih

theorem alistDelete_length_lt {β : Type} (m : List (String × β)) (e : String × β)
    (hm : e ∈ m) : (alistDelete m e.1).length < m.length := by
  induction m with
  | nil => cases hm
  | cons p t ih =>
    rcases List.mem_cons.1 hm with heq | ht
    · subst heq
      simp only [alistDelete, beq_self_eq_true, if_true, List.length_cons]
      exact Nat.lt_succ_of_le (alistDelete_length_le t _)
    · by_cases hp : p.1 == e.1
      · simp only [alistDelete, hp, if_true, List.length_cons]
        exact Nat.lt_succ_of_lt (ih ht)
      · simp only [alistDelete, hp, if_false, List.length_cons]
        exact Nat.succ_lt_succ (ih ht)

/-! ## Lemmas: the LRU scan -/

theorem oldestFrom_mem (q : String × Nat) (m : OpenMap) :
    oldestFrom q m = q ∨ oldestFrom q m ∈ m := by
  induction m generalizing q with
  | nil => exact Or.inl rfl
  | cons p t ih =>
    simp only [oldestFrom]
    by_cases h : p.2 < q.2
    · simp only [h, if_true]
      rcases ih p with he | hm
      · exact Or.inr (by simp [he])
      · exact Or.inr (List.mem_cons_of_mem _ hm)
    · simp only [h, if_false]
      rcases ih q with he | hm
      · exact Or.inl he
      · exact Or.inr (List.mem_cons_of_mem _ hm)

theorem oldestFrom_le (q : String × Nat) (m : OpenMap) :
    (oldestFrom q m).2 ≤ q.2 ∧ ∀ p ∈ m, (oldestFrom q m).2 ≤ p.2 := by
  induction m generalizing q with
  | nil => exact ⟨Nat.le_refl _, by simp⟩
  | cons p t ih =>
    simp only [oldestFrom]
    by_cases h : p.2 < q.2
    · simp only [h, if_true]
      refine ⟨Nat.le_trans (ih p).1 (Nat.le_of_lt h), ?_⟩
      intro r hr
      rcases List.mem_cons.1 hr with heq | hrt
      · rw [heq]
        exact (ih p).1
      · exact (ih p).2 r hrt
    · simp only [h, if_false]
      refine ⟨(ih q).1, ?_⟩
      intro r hr
      rcases List.mem_cons.1 hr with heq | hrt
      · rw [heq]
        exact Nat.le_trans (ih q).1 (Nat.le_of_not_lt h)
      · exact (ih q).2 r hrt

theorem oldestFrom_first (q : String × Nat) (m : OpenMap) :
    oldestFrom q m = q ∨
    (∃ l1 l2, m = l1 ++ oldestFrom q m :: l2 ∧
      (oldestFrom q m).2 < q.2 ∧ ∀ p ∈ l1, (oldestFrom q m).2 < p.2) := by
  induction m generalizing q with
  | nil => exact Or.inl rfl
  | cons p t ih =>
    simp only [oldestFrom]
    by_cases h : p.2 < q.2
    · simp only [h, if_true]
      rcases ih p with he | ⟨l1, l2, hm, hlt, hall⟩
      · refine Or.inr ⟨[], t, ?_, ?_, ?_⟩
        · rw [he]
          rfl
        · rw [he]
          exact h
        · intro r hr
          exact absurd hr (List.not_mem_nil r)
      · refine Or.inr ⟨p :: l1, l2, ?_, ?_, ?_⟩
        · rw [List.cons_append, ← hm]
        · exact Nat.lt_trans hlt h
        · intro r hr
          rcases List.mem_cons.1 hr with heq | hrl
          · rw [heq]
            exact hlt
          · exact hall r hrl
    · simp only [h, if_false]
      rcases ih q with he | ⟨l1, l2, hm, hlt, hall⟩
      · exact Or.inl he
      · refine Or.inr ⟨p :: l1, l2, ?_, ?_, ?_⟩
        · rw [List.cons_append, ← hm]
        · exact hlt
        · intro r hr
          rcases List.mem_cons.1 hr with heq | hrl
          · rw [heq]
            exact Nat.lt_of_lt_of_le hlt (Nat.le_of_not_lt h)
          · exact hall r hrl

theorem oldestEntry_mem (m : OpenMap) (e : String × Nat)
    (h : oldestEntry m = some e) : e ∈ m := by
  cases m with
  | nil => cases h
  | cons p t =>
    have he : oldestFrom p t = e := by
      simpa [oldestEntry] using h
    rcases oldestFrom_mem p t with hq | hm
    · rw [← he, hq]
      exact List.mem_cons_self p t
    · exact List.mem_cons_of_mem _ (he ▸ hm)

theorem oldestEntry_min (m : OpenMap) (e : String × Nat)
    (h : oldestEntry m = some e) : ∀ p ∈ m, e.2 ≤ p.2 := by
  cases m with
  | nil => cases h
  | cons p t =>
    have he : oldestFrom p t = e := by
      simpa [oldestEntry] using h
    intro r hr
    rcases List.mem_cons.1 hr with heq | hrt
    · rw [heq, ← he]
      exact (oldestFrom_le p t).1
    · rw [← he]
      exact (oldestFrom_le p t).2 r hrt

theorem oldestEntry_first (m : OpenMap) (e : String × Nat)
    (h : oldestEntry m = some e) :
    ∃ l1 l2, m = l1 ++ e :: l2 ∧ ∀ p ∈ l1, e.2 < p.2 := by
  cases m with
  | nil => cases h
  | cons p t =>
    have he : oldestFrom p t = e := by
      simpa [oldestEntry] using h
    rcases oldestFrom_first p t with hq | ⟨l1, l2, hm, hlt, hall⟩
    · refine ⟨[], t, ?_, ?_⟩
      · rw [← he, hq]
        rfl
      · intro r hr
        exact absurd hr (List.not_mem_nil r)
    · refine ⟨p :: l1, l2, ?_, ?_⟩
      · rw [List.cons_append, ← he, ← hm]
      · intro r hr
        rcases List.mem_cons.1 hr with heq | hrl
        · rw [heq, ← he]
          exact hlt
        · rw [← he]
          exact hall r hrl

theorem oldestEntry_isSome (m : OpenMap) (h : m ≠ []) :
    ∃ e, oldestEntry m = some e := by
  cases m with
  | nil => exact absurd rfl h
  | cons p t => exact ⟨oldestFrom p t, rfl⟩

theorem setTime_length (m : OpenMap) (u : String) (t : Nat) :
    (setTime m u t).length = m.length := by
  induction m with
  | nil => rfl
  | cons p rest ih =>
    by_cases hp : p.1 == u
    · simp [setTime, hp, ih]
    · simp [setTime, hp, ih]

theorem evictLRU_openFiles (b : Bridge) (e : String × Nat)
    (h : oldestEntry b.openFiles = some e) :
    (evictLRU b).openFiles = alistDelete b.openFiles e.1 := by
  unfold evictLRU
  rw [h]

/-! ## Lemmas: case equations of `ensureFileOpen` -/

theorem ensureFileOpen_already_open (b : Bridge) (uri : String) (now : Nat) (ok : Bool)
    (hin : (lookupTime b.openFiles uri).isSome = true) :
    ensureFileOpen b uri now ok = { b with openFiles := setTime b.openFiles uri now } := by
  simp [ensureFileOpen, hin]

theorem ensureFileOpen_fresh_ok (b : Bridge) (uri : String) (now : Nat)
    (hin : (lookupTime b.openFiles uri).isSome = false) :
    ensureFileOpen b uri now true =
      (let b1 := if maxOpenFiles ≤ b.openFiles.length then evictLRU b else b
       { b1 with
          openFiles := b1.openFiles ++ [(uri, now)]
          notes := b1.notes ++ [.didOpen uri] }) := by
  simp [ensureFileOpen, hin]

theorem ensureFileOpen_fresh_fail (b : Bridge) (uri : String) (now : Nat)
    (hin : (lookupTime b.openFiles uri).isSome = false) :
    ensureFileOpen b uri now false =
      (if maxOpenFiles ≤ b.openFiles.length then evictLRU b else b) := by
  simp [ensureFileOpen, hin]

/-! ## Lemmas: the capacity bound of the tracker -/

theorem evictLRU_length_lt (b : Bridge) (hne : b.openFiles ≠ []) :
    (evictLRU b).openFiles.length < b.openFiles.length := by
  obtain ⟨e, he⟩ := oldestEntry_isSome b.openFiles hne
  rw [evictLRU_openFiles b e he]
  exact alistDelete_length_lt b.openFiles e (oldestEntry_mem b.openFiles e he)

theorem ensureFileOpen_length_le (b : Bridge) (uri : String) (now : Nat) (ok : Bool)
    (h : b.openFiles.length ≤ maxOpenFiles) :
    (ensureFileOpen b uri now ok).openFiles.length ≤ maxOpenFiles := by
  by_cases hin : (lookupTime b.openFiles uri).isSome
  · rw [ensureFileOpen_already_open b uri now ok hin]
    show (setTime b.openFiles uri now).length ≤ maxOpenFiles
    rw [setTime_length]
    exact h
  · have hin' : (lookupTime b.openFiles uri).isSome = false :=
      Bool.not_eq_true _ ▸ eq_false_of_ne_true hin
    have hb1 : (if maxOpenFiles ≤ b.openFiles.length then evictLRU b
        else b).openFiles.length + 1 ≤ maxOpenFiles + 1 := by
      by_cases hfull : maxOpenFiles ≤ b.openFiles.length
      · rw [if_pos hfull]
        have hne : b.openFiles ≠ [] := by
          intro hempty
          rw [hempty] at hfull
          exact absurd (Nat.le_antisymm hfull (Nat.zero_le _)) (by decide)
        have hlt : (evictLRU b).openFiles.length < maxOpenFiles :=
          Nat.lt_of_lt_of_le (evictLRU_length_lt b hne) h
        exact Nat.succ_le_succ (Nat.le_of_lt hlt)
      · rw [if_neg hfull]
        exact Nat.succ_le_succ h
    cases ok with
    | true =>
      rw [ensureFileOpen_fresh_ok b uri now hin']
      show ((if maxOpenFiles ≤ b.openFiles.length then evictLRU b
        else b).openFiles ++ [(uri, now)]).length ≤ maxOpenFiles
      rw [List.length_append]
      by_cases hfull : maxOpenFiles ≤ b.openFiles.length
      · rw [if_pos hfull]
        have hne : b.openFiles ≠ [] := by
          intro hempty
          rw [hempty] at hfull
          exact absurd (Nat.le_antisymm hfull (Nat.zero_le _)) (by decide)
        have hlt : (evictLRU b).openFiles.length < maxOpenFiles :=
          Nat.lt_of_lt_of_le (evictLRU_length_lt b hne) h
        exact Nat.succ_le_of_lt hlt
      · rw [if_neg hfull]
        exact Nat.succ_le_of_lt (Nat.lt_of_not_le hfull)
    | false =>
      rw [ensureFileOpen_fresh_fail b uri now hin']
      by_cases hfull : maxOpenFiles ≤ b.openFiles.length
      · rw [if_pos hfull]
        have hne : b.openFiles ≠ [] := by
          intro hempty
          rw [hempty] at hfull
          exact absurd (Nat.le_antisymm hfull (Nat.zero_le _)) (by decide)
        exact Nat.le_of_lt (Nat.lt_of_lt_of_le (evictLRU_length_lt b hne) h)
      · rw [if_neg hfull]
        exact h

theorem foldl_ensure_length_le (calls : List (String × Nat × Bool)) :
    ∀ b : Bridge, b.openFiles.length ≤ maxOpenFiles →
      ((calls.foldl (fun b c => ensureFileOpen b c.1 c.2.1 c.2.2) b).openFiles.length
        ≤ maxOpenFiles) := by
  induction calls with
  | nil =>
    intro b h
    exact h
  | cons c t ih =>
    intro b h
    exact ih _ (ensureFileOpen_length_le b c.1 c.2.1 c.2.2 h)

/-- Claim C1: over any sequence of `ensureFileOpen` calls the tracker's map
of open files never exceeds the configured maximum of 100 entries, and every
eviction removes exactly the entry with the oldest last-access timestamp,
breaking ties by taking the first such entry in map iteration order. -/
theorem C1_capacity_bound_and_lru_eviction :
    (∀ calls : List (String × Nat × Bool),
        (runEnsures calls).openFiles.length ≤ maxOpenFiles) ∧
    (∀ (b : Bridge) (e : String × Nat), oldestEntry b.openFiles = some e →
        (evictLRU b).openFiles = alistDelete b.openFiles e.1 ∧
        (∀ p ∈ b.openFiles, e.2 ≤ p.2) ∧
        (∃ l1 l2, b.openFiles = l1 ++ e :: l2 ∧ ∀ p ∈ l1, e.2 < p.2)) := by
  constructor
  · intro calls
    exact foldl_ensure_length_le calls initialBridge (by decide)
  · intro b e he
    exact ⟨evictLRU_openFiles b e he, oldestEntry_min b.openFiles e he,
      oldestEntry_first b.openFiles e he⟩

/-- Witness for C1 at a concrete tracker state: among three entries with a
timestamp tie between the second and third, the second (first-encountered
minimal) is the one evicted. -/
theorem C1_capacity_bound_and_lru_eviction_witness :
    oldestEntry ([("a", 5), ("b", 3), ("c", 3)] : OpenMap) = some ("b", 3) ∧
    ((evictLRU ⟨[("a", 5), ("b", 3), ("c", 3)], [], []⟩).openFiles
        = alistDelete ([("a", 5), ("b", 3), ("c", 3)] : OpenMap) "b" ∧
      (∀ p ∈ ([("a", 5), ("b", 3), ("c", 3)] : OpenMap), 3 ≤ p.2) ∧
      (∃ l1 l2, ([("a", 5), ("b", 3), ("c", 3)] : OpenMap) = l1 ++ ("b", 3) :: l2 ∧
        ∀ p ∈ l1, 3 < p.2)) :=
  ⟨by decide,
    C1_capacity_bound_and_lru_eviction.2 ⟨[("a", 5), ("b", 3), ("c", 3)], [], []⟩
      ("b", 3) (by decide)⟩

/-! ## Lemmas: diagnostics coherence -/

theorem isSome_alistFind_append_or {β : Type} (m l : List (String × β)) (k : String)
    (h : (alistFind (m ++ l) k).isSome = true) :
    (alistFind m k).isSome = true ∨ (alistFind l k).isSome = true := by
  induction m with
  | nil => exact Or.inr h
  | cons p t ih =>
    by_cases hp : p.1 == k
    · exact Or.inl (by simp [alistFind, hp])
    · simp only [List.cons_append, alistFind, hp, if_false] at h ⊢
      exact ih h

theorem ne_of_isSome_find_delete {β : Type} (m : List (String × β)) (k v : String)
    (h : (alistFind (alistDelete m k) v).isSome = true) : v ≠ k := by
  intro heq
  rw [heq, alistFind_delete_self] at h
  cases h

theorem isSome_of_isSome_find_delete {β : Type} (m : List (String × β)) (k v : String)
    (h : (alistFind (alistDelete m k) v).isSome = true) :
    (alistFind m v).isSome = true := by
  have hne := ne_of_isSome_find_delete m k v h
  rw [alistFind_delete_ne m k v hne] at h
  exact h

theorem mem_keys_of_isSome_alistFind {β : Type} (m : List (String × β)) (k : String)
    (h : (alistFind m k).isSome = true) : k ∈ m.map Prod.fst := by
  induction m with
  | nil => cases h
  | cons p t ih =>
    by_cases hp : p.1 == k
    · have : p.1 = k := by simpa using hp
      rw [← this]
      exact List.mem_cons_self _ _
    · simp only [alistFind, hp, if_false] at h
      exact List.mem_cons_of_mem _ (ih h)

theorem clearForFile_preserves_none (d : DiagMap) (k u : String)
    (h : diagLookup d u = none) : diagLookup (clearForFile d k) u = none := by
  by_cases heq : u = k
  · rw [heq]
    exact alistFind_delete_self d k
  · show alistFind (alistDelete d k) u = none
    rw [alistFind_delete_ne d k u heq]
    exact h

theorem foldClear_preserves_none (ks : List (String × Nat)) :
    ∀ (d : DiagMap) (u : String), diagLookup d u = none →
      diagLookup (ks.foldl (fun d p => clearForFile d p.1) d) u = none := by
  induction ks with
  | nil =>
    intro d u h
    exact h
  | cons p t ih =>
    intro d u h
    exact ih _ u (clearForFile_preserves_none d p.1 u h)

theorem foldClear_of_mem_keys (ks : List (String × Nat)) :
    ∀ (d : DiagMap) (u : String), u ∈ ks.map Prod.fst →
      diagLookup (ks.foldl (fun d p => clearForFile d p.1) d) u = none := by
  induction ks with
  | nil =>
    intro d u h
    cases h
  | cons p t ih =>
    intro d u h
    rcases List.mem_cons.1 h with heq | ht
    · refine foldClear_preserves_none t _ u ?_
      rw [heq]
      exact alistFind_delete_self d p.1
    · exact ih _ u ht

/-! ## Lemmas: case equations of `closeFile` and shape of `evictLRU` -/

theorem closeFile_open_eq (b : Bridge) (uri : String)
    (hin : (lookupTime b.openFiles uri).isSome = true) :
    closeFile b uri =
      { openFiles := alistDelete b.openFiles uri
        diags := clearForFile b.diags uri
        notes := b.notes ++ [.didClose uri] } := by
  simp [closeFile, hin]

theorem closeFile_not_open (b : Bridge) (uri : String)
    (hin : (lookupTime b.openFiles uri).isSome = false) :
    closeFile b uri = b := by
  simp [closeFile, hin]

theorem evictLRU_eq (b : Bridge) (e : String × Nat)
    (h : oldestEntry b.openFiles = some e) :
    evictLRU b =
      { openFiles := alistDelete b.openFiles e.1
        diags := clearForFile b.diags e.1
        notes := b.notes ++ [.didClose e.1] } := by
  unfold evictLRU
  rw [h]

/-! ## Lemmas: coherence is preserved by every bridge operation -/

theorem diagsCoherent_evictLRU (b : Bridge) (h : DiagsCoherent b) :
    DiagsCoherent (evictLRU b) := by
  cases he : oldestEntry b.openFiles with
  | none =>
    unfold evictLRU
    rw [he]
    exact h
  | some e =>
    rw [evictLRU_eq b e he]
    intro u hu
    have hne : u ≠ e.1 := ne_of_isSome_find_delete b.diags e.1 u hu
    have hd : (diagLookup b.diags u).isSome = true :=
      isSome_of_isSome_find_delete b.diags e.1 u hu
    have ho := h u hd
    show (alistFind (alistDelete b.openFiles e.1) u).isSome = true
    rw [alistFind_delete_ne b.openFiles e.1 u hne]
    exact ho

theorem diagsCoherent_ensureFileOpen (b : Bridge) (uri : String) (now : Nat) (ok : Bool)
    (h : DiagsCoherent b) : DiagsCoherent (ensureFileOpen b uri now ok) := by
  by_cases hin : (lookupTime b.openFiles uri).isSome
  · rw [ensureFileOpen_already_open b uri now ok hin]
    intro u hu
    show (alistFind (setTime b.openFiles uri now) u).isSome = true
    rw [isSome_alistFind_setTime]
    exact h u hu
  · have hin' : (lookupTime b.openFiles uri).isSome = false :=
      Bool.not_eq_true _ ▸ eq_false_of_ne_true hin
    have hb1 : DiagsCoherent
        (if maxOpenFiles ≤ b.openFiles.length then evictLRU b else b) := by
      by_cases hfull : maxOpenFiles ≤ b.openFiles.length
      · rw [if_pos hfull]
        exact diagsCoherent_evictLRU b h
      · rw [if_neg hfull]
        exact h
    cases ok with
    | true =>
      rw [ensureFileOpen_fresh_ok b uri now hin']
      intro u hu
      show (alistFind ((if maxOpenFiles ≤ b.openFiles.length then evictLRU b
        else b).openFiles ++ [(uri, now)]) u).isSome = true
      exact isSome_alistFind_append_left _ _ u (hb1 u hu)
    | false =>
      rw [ensureFileOpen_fresh_fail b uri now hin']
      exact hb1

theorem diagsCoherent_closeFile (b : Bridge) (uri : String)
    (h : DiagsCoherent b) : DiagsCoherent (closeFile b uri) := by
  by_cases hin : (lookupTime b.openFiles uri).isSome
  · rw [closeFile_open_eq b uri hin]
    intro u hu
    have hne : u ≠ uri := ne_of_isSome_find_delete b.diags uri u hu
    have hd : (diagLookup b.diags u).isSome = true :=
      isSome_of_isSome_find_delete b.diags uri u hu
    show (alistFind (alistDelete b.openFiles uri) u).isSome = true
    rw [alistFind_delete_ne b.openFiles uri u hne]
    exact h u hd
  · rw [closeFile_not_open b uri (Bool.not_eq_true _ ▸ eq_false_of_ne_true hin)]
    exact h

theorem diagsCoherent_closeAll (b : Bridge) (h : DiagsCoherent b) :
    DiagsCoherent (closeAll b) := by
  intro u hu
  exfalso
  by_cases hd : (diagLookup b.diags u).isSome
  · have ho := h u hd
    have hmem := mem_keys_of_isSome_alistFind b.openFiles u ho
    have : diagLookup (closeAll b).diags u = none :=
      foldClear_of_mem_keys b.openFiles b.diags u hmem
    rw [this] at hu
    cases hu
  · have hnone : diagLookup b.diags u = none := by
      cases hval : diagLookup b.diags u with
      | none => rfl
      | some v =>
        rw [hval] at hd
        exact absurd rfl hd
    have : diagLookup (closeAll b).diags u = none :=
      foldClear_preserves_none b.openFiles b.diags u hnone
    rw [this] at hu
    cases hu

theorem diagsCoherent_publish (b : Bridge) (uri : String) (recs : List Nat)
    (h : DiagsCoherent b) : DiagsCoherent (publishDiagnostics b uri recs) := by
  by_cases hin : (lookupTime b.openFiles uri).isSome
  · have heq : publishDiagnostics b uri recs =
        { b with diags := clearForFile b.diags uri ++ [(uri, recs)] } := by
      simp [publishDiagnostics, hin]
    rw [heq]
    intro u hu
    rcases isSome_alistFind_append_or _ _ u hu with hleft | hright
    · have hne : u ≠ uri := ne_of_isSome_find_delete b.diags uri u hleft
      have hd : (diagLookup b.diags u).isSome = true :=
        isSome_of_isSome_find_delete b.diags uri u hleft
      exact h u hd
    · have : u = uri := by
        by_cases heq2 : uri == u
        · have h3 : uri = u := by simpa using heq2
          exact h3.symm
        · exfalso
          simp only [alistFind, heq2, if_false] at hright
          cases hright
      rw [this]
      exact hin
  · have heq : publishDiagnostics b uri recs = b := by
      simp [publishDiagnostics, hin]
    rw [heq]
    exact h

theorem diagsCoherent_applyOp (b : Bridge) (op : BridgeOp)
    (h : DiagsCoherent b) : DiagsCoherent (applyOp b op) := by
  cases op with
  | ensure uri now ok => exact diagsCoherent_ensureFileOpen b uri now ok h
  | close uri => exact diagsCoherent_closeFile b uri h
  | closeAllFiles => exact diagsCoherent_closeAll b h
  | publish uri recs => exact diagsCoherent_publish b uri recs h

theorem diagsCoherent_foldl (ops : List BridgeOp) :
    ∀ b : Bridge, DiagsCoherent b → DiagsCoherent (ops.foldl applyOp b) := by
  induction ops with
  | nil =>
    intro b h
    exact h
  | cons op t ih =>
    intro b h
    exact ih _ (diagsCoherent_applyOp b op h)

/-- Claim C3: closing or evicting a file sends a close notification, removes
the tracker entry, and runs the `onFileClosed` hook, clearing that file's
diagnostics cache entry; consequently no diagnostics entry exists for a file
that is not in the open-document map. -/
theorem C3_close_paths_clear_diagnostics :
    (∀ (b : Bridge) (uri : String), (lookupTime b.openFiles uri).isSome = true →
        (closeFile b uri).notes = b.notes ++ [.didClose uri] ∧
        lookupTime (closeFile b uri).openFiles uri = none ∧
        diagLookup (closeFile b uri).diags uri = none) ∧
    (∀ b : Bridge, (closeAll b).openFiles = [] ∧
        ∀ uri ∈ b.openFiles.map Prod.fst,
          LspNote.didClose uri ∈ (closeAll b).notes ∧
          diagLookup (closeAll b).diags uri = none) ∧
    (∀ (b : Bridge) (e : String × Nat), oldestEntry b.openFiles = some e →
        (evictLRU b).notes = b.notes ++ [.didClose e.1] ∧
        lookupTime (evictLRU b).openFiles e.1 = none ∧
        diagLookup (evictLRU b).diags e.1 = none) ∧
    (∀ ops : List BridgeOp, DiagsCoherent (runOps ops)) := by
  refine ⟨?_, ?_, ?_, ?_⟩
  · intro b uri hin
    rw [closeFile_open_eq b uri hin]
    exact ⟨rfl, alistFind_delete_self b.openFiles uri, alistFind_delete_self b.diags uri⟩
  · intro b
    refine ⟨rfl, ?_⟩
    intro uri hmem
    constructor
    · show LspNote.didClose uri ∈ b.notes ++ b.openFiles.map (fun p => .didClose p.1)
      refine List.mem_append_right _ ?_
      rcases List.mem_map.1 hmem with ⟨p, hp, hpk⟩
      exact List.mem_map.2 ⟨p, hp, by rw [hpk]⟩
    · exact foldClear_of_mem_keys b.openFiles b.diags uri hmem
  · intro b e he
    rw [evictLRU_eq b e he]
    exact ⟨rfl, alistFind_delete_self b.openFiles e.1, alistFind_delete_self b.diags e.1⟩
  · intro ops
    refine diagsCoherent_foldl ops initialBridge ?_
    intro u hu
    cases hu

/-- Witness for C3 at a concrete bridge state with one open file carrying a
cached diagnostics entry. -/
theorem C3_close_paths_clear_diagnostics_witness :
    (lookupTime ([("f", 7)] : OpenMap) "f").isSome = true ∧
    ((closeFile ⟨[("f", 7)], [("f", [1, 2])], []⟩ "f").notes = [] ++ [.didClose "f"] ∧
      lookupTime (closeFile ⟨[("f", 7)], [("f", [1, 2])], []⟩ "f").openFiles "f" = none ∧
      diagLookup (closeFile ⟨[("f", 7)], [("f", [1, 2])], []⟩ "f").diags "f" = none) :=
  ⟨by decide,
    C3_close_paths_clear_diagnostics.1 ⟨[("f", 7)], [("f", [1, 2])], []⟩ "f" (by decide)⟩

/-! ## Lemmas: counting under a positional list update -/

theorem countP_set_get? {α : Type} (p : α → Bool) (l : List α) (i : Nat) (c a : α)
    (hc : l.get? i = some c) :
    (l.set i a).countP p + (if p c = true then 1 else 0)
      = l.countP p + (if p a = true then 1 else 0) := by
  obtain ⟨h, hg⟩ := List.get?_eq_some.1 hc
  have hle := List.boole_getElem_le_countP p l i h
  have hgc : l[i] = c := hg
  rw [hgc] at hle
  rw [List.countP_set p l i a h, hgc]
  rcases Bool.eq_false_or_eq_true (p c) with hpc | hpc <;>
    rcases Bool.eq_false_or_eq_true (p a) with hpa | hpa <;>
    rw [hpc] at hle ⊢ <;>
    rw [hpa] <;>
    simp only [Bool.false_eq_true, if_true, if_false] at hle ⊢ <;>
    omega

theorem countP_set_same {α : Type} (p : α → Bool) (l : List α) (i : Nat) (c a : α)
    (hc : l.get? i = some c) (hpp : p c = p a) :
    (l.set i a).countP p = l.countP p := by
  have h := countP_set_get? p l i c a hc
  rw [hpp] at h
  omega

theorem countP_set_succ {α : Type} (p : α → Bool) (l : List α) (i : Nat) (c a : α)
    (hc : l.get? i = some c) (hpc : p c = false) (hpa : p a = true) :
    (l.set i a).countP p = l.countP p + 1 := by
  have h := countP_set_get? p l i c a hc
  rw [hpc, hpa] at h
  simp only [Bool.false_eq_true, if_true, if_false] at h
  omega

theorem countP_set_pred {α : Type} (p : α → Bool) (l : List α) (i : Nat) (c a : α)
    (hc : l.get? i = some c) (hpc : p c = true) (hpa : p a = false) :
    (l.set i a).countP p + 1 = l.countP p := by
  have h := countP_set_get? p l i c a hc
  rw [hpc, hpa] at h
  simp only [Bool.false_eq_true, if_true, if_false] at h
  omega

theorem not_pc_of_countP_zero (l : List (OpenPC × Bool)) (pc0 : OpenPC)
    (h : l.countP (fun c => c.1 == pc0) = 0) :
    ∀ c ∈ l, c.1 ≠ pc0 := by
  intro c hcm heq
  apply List.countP_eq_zero.1 h c hcm
  rw [heq]
  exact beq_self_eq_true _

theorem countP_pos_of_mem_pc (l : List (OpenPC × Bool)) (pc0 : OpenPC)
    (c : OpenPC × Bool) (hc : c ∈ l) (he : c.1 = pc0) :
    0 < l.countP (fun c => c.1 == pc0) := by
  refine List.countP_pos_iff.2 ⟨c, hc, ?_⟩
  rw [he]
  exact beq_self_eq_true _

/-! ## Lemmas: the single-flight invariant is preserved by every step -/

theorem openStep_inv (s : OpenFlight) (i : Nat) (h : OpenInv s) :
    OpenInv (openStep s i) := by
  obtain ⟨hdid, hopen, hflight, hrdrs, hoks, hread, hpost, hwait, hdone, hfail⟩ := h
  unfold openStep
  cases hc : s.callers.get? i with
  | none => exact ⟨hdid, hopen, hflight, hrdrs, hoks, hread, hpost, hwait, hdone, hfail⟩
  | some c =>
    obtain ⟨pc, ok⟩ := c
    have hmem : (pc, ok) ∈ s.callers := List.get?_mem hc
    have hokt : ok = true := hoks _ hmem
    subst hokt
    cases pc with
    | start =>
      dsimp only
      by_cases ho : s.isOpen = true
      · rw [if_pos ho]
        have eR := countP_set_same (fun c => c.1 == OpenPC.reading) s.callers i
          (OpenPC.start, true) (OpenPC.done, true) hc (by decide)
        have eP := countP_set_same (fun c => c.1 == OpenPC.postOpen) s.callers i
          (OpenPC.start, true) (OpenPC.done, true) hc (by decide)
        dsimp only [OpenInv, withPC, readersCount] at *
        rw [eR, eP]
        refine ⟨hdid, hopen, hflight, hrdrs, ?_, ?_, ?_, ?_, ?_, ?_⟩ <;>
          intro c hcm <;>
          rcases List.mem_or_eq_of_mem_set hcm with hold | hnew
        · exact hoks c hold
        · rw [hnew]
        · exact hread c hold
        · rw [hnew]
          intro hcontra
          cases hcontra
        · exact hpost c hold
        · rw [hnew]
          intro hcontra
          cases hcontra
        · exact hwait c hold
        · rw [hnew]
          intro hcontra
          cases hcontra
        · exact hdone c hold
        · intro _
          exact ho
        · exact hfail c hold
        · rw [hnew]
          intro hcontra
          cases hcontra
      · rw [if_neg ho]
        have hof : s.isOpen = false := Bool.not_eq_true _ ▸ eq_false_of_ne_true ho
        by_cases hf : s.inFlight = true
        · rw [if_pos hf]
          have eR := countP_set_same (fun c => c.1 == OpenPC.reading) s.callers i
            (OpenPC.start, true) (OpenPC.waiting, true) hc (by decide)
          have eP := countP_set_same (fun c => c.1 == OpenPC.postOpen) s.callers i
            (OpenPC.start, true) (OpenPC.waiting, true) hc (by decide)
          dsimp only [OpenInv, withPC, readersCount] at *
          rw [eR, eP]
          refine ⟨hdid, hopen, hflight, hrdrs, ?_, ?_, ?_, ?_, ?_, ?_⟩ <;>
            intro c hcm <;>
            rcases List.mem_or_eq_of_mem_set hcm with hold | hnew
          · exact hoks c hold
          · rw [hnew]
          · exact hread c hold
          · rw [hnew]
            intro hcontra
            cases hcontra
          · exact hpost c hold
          · rw [hnew]
            intro hcontra
            cases hcontra
          · exact hwait c hold
          · intro _
            exact Or.inl hf
          · exact hdone c hold
          · rw [hnew]
            intro hcontra
            cases hcontra
          · exact hfail c hold
          · rw [hnew]
            intro hcontra
            cases hcontra
        · rw [if_neg hf]
          have hff : s.inFlight = false := Bool.not_eq_true _ ▸ eq_false_of_ne_true hf
          have hzero : readersCount s = 0 := by
            rcases Nat.lt_or_ge (readersCount s) 1 with h1 | h1
            · omega
            · exfalso
              have h2 : readersCount s = 1 := Nat.le_antisymm hrdrs h1
              rw [hflight.2 h2] at hff
              cases hff
          have hR0 : s.callers.countP (fun c => c.1 == OpenPC.reading) = 0 := by
            dsimp only [readersCount] at hzero
            omega
          have hP0 : s.callers.countP (fun c => c.1 == OpenPC.postOpen) = 0 := by
            dsimp only [readersCount] at hzero
            omega
          have eR := countP_set_succ (fun c => c.1 == OpenPC.reading) s.callers i
            (OpenPC.start, true) (OpenPC.reading, true) hc (by decide) (by decide)
          have eP := countP_set_same (fun c => c.1 == OpenPC.postOpen) s.callers i
            (OpenPC.start, true) (OpenPC.reading, true) hc (by decide)
          dsimp only [OpenInv, withPC, readersCount] at *
          rw [eR, eP, hR0, hP0]
          refine ⟨hdid, ?_, ?_, ?_, ?_, ?_, ?_, ?_, ?_, ?_⟩
          · exact hopen
          · constructor
            · intro _
              rfl
            · intro _
              rfl
          · omega
          · intro c hcm
            rcases List.mem_or_eq_of_mem_set hcm with hold | hnew
            · exact hoks c hold
            · rw [hnew]
          · intro c hcm _
            exact hof
          · intro c hcm hcp
            rcases List.mem_or_eq_of_mem_set hcm with hold | hnew
            · exact absurd hcp (not_pc_of_countP_zero s.callers OpenPC.postOpen hP0 c hold)
            · rw [hnew] at hcp
              cases hcp
          · intro c hcm _
            exact Or.inl rfl
          · intro c hcm hcd
            rcases List.mem_or_eq_of_mem_set hcm with hold | hnew
            · exact absurd (hdone c hold hcd) ho
            · rw [hnew] at hcd
              cases hcd
          · intro c hcm
            rcases List.mem_or_eq_of_mem_set hcm with hold | hnew
            · exact hfail c hold
            · rw [hnew]
              intro hcontra
              cases hcontra
    | waiting =>
      dsimp only
      by_cases hf : s.inFlight = true
      · rw [if_pos hf]
        exact ⟨hdid, hopen, hflight, hrdrs, hoks, hread, hpost, hwait, hdone, hfail⟩
      · rw [if_neg hf]
        by_cases ho : s.isOpen = true
        · rw [if_pos ho]
          have eR := countP_set_same (fun c => c.1 == OpenPC.reading) s.callers i
            (OpenPC.waiting, true) (OpenPC.done, true) hc (by decide)
          have eP := countP_set_same (fun c => c.1 == OpenPC.postOpen) s.callers i
            (OpenPC.waiting, true) (OpenPC.done, true) hc (by decide)
          dsimp only [OpenInv, withPC, readersCount] at *
          rw [eR, eP]
          refine ⟨hdid, hopen, hflight, hrdrs, ?_, ?_, ?_, ?_, ?_, ?_⟩ <;>
            intro c hcm <;>
            rcases List.mem_or_eq_of_mem_set hcm with hold | hnew
          · exact hoks c hold
          · rw [hnew]
          · exact hread c hold
          · rw [hnew]
            intro hcontra
            cases hcontra
          · exact hpost c hold
          · rw [hnew]
            intro hcontra
            cases hcontra
          · exact hwait c hold
          · rw [hnew]
            intro hcontra
            cases hcontra
          · exact hdone c hold
          · intro _
            exact ho
          · exact hfail c hold
          · rw [hnew]
            intro hcontra
            cases hcontra
        · exfalso
          rcases hwait _ hmem rfl with hfl | hop
          · exact hf hfl
          · exact ho hop
    | reading =>
      dsimp only
      rw [if_pos rfl]
      have hof : s.isOpen = false := hread _ hmem rfl
      have hdid0 : s.didOpens = 0 := by
        rcases Nat.lt_or_ge s.didOpens 1 with h1 | h1
        · omega
        · exfalso
          have h2 : s.didOpens = 1 := Nat.le_antisymm hdid h1
          rw [hopen.2 h2] at hof
          cases hof
      have hRpos : 0 < s.callers.countP (fun c => c.1 == OpenPC.reading) :=
        countP_pos_of_mem_pc s.callers OpenPC.reading (OpenPC.reading, true) hmem rfl
      have hRP : s.callers.countP (fun c => c.1 == OpenPC.reading) +
          s.callers.countP (fun c => c.1 == OpenPC.postOpen) ≤ 1 := hrdrs
      have hR1 : s.callers.countP (fun c => c.1 == OpenPC.reading) = 1 := by omega
      have hP0 : s.callers.countP (fun c => c.1 == OpenPC.postOpen) = 0 := by omega
      have hfl : s.inFlight = true := by
        apply hflight.2
        dsimp only [readersCount]
        omega
      have eR := countP_set_pred (fun c => c.1 == OpenPC.reading) s.callers i
        (OpenPC.reading, true) (OpenPC.postOpen, true) hc (by decide) (by decide)
      have eP := countP_set_succ (fun c => c.1 == OpenPC.postOpen) s.callers i
        (OpenPC.reading, true) (OpenPC.postOpen, true) hc (by decide) (by decide)
      have eR0 : (s.callers.set i (OpenPC.postOpen, true)).countP
          (fun c => c.1 == OpenPC.reading) = 0 := by omega
      have eP1 : (s.callers.set i (OpenPC.postOpen, true)).countP
          (fun c => c.1 == OpenPC.postOpen) = 1 := by omega
      dsimp only [OpenInv, withPC, readersCount]
      rw [eR0, eP1, hdid0]
      refine ⟨by omega, ?_, ?_, by omega, ?_, ?_, ?_, ?_, ?_, ?_⟩
      · constructor
        · intro _
          rfl
        · intro _
          rfl
      · rw [hfl]
        constructor
        · intro _
          rfl
        · intro _
          rfl
      · intro c hcm
        rcases List.mem_or_eq_of_mem_set hcm with hold | hnew
        · exact hoks c hold
        · rw [hnew]
      · intro c hcm hcr
        exact absurd hcr (not_pc_of_countP_zero _ OpenPC.reading eR0 c hcm)
      · intro c hcm _
        rfl
      · intro c hcm _
        exact Or.inr rfl
      · intro c hcm _
        rfl
      · intro c hcm
        rcases List.mem_or_eq_of_mem_set hcm with hold | hnew
        · exact hfail c hold
        · rw [hnew]
          intro hcontra
          cases hcontra
    | postOpen =>
      dsimp only
      rw [if_pos rfl]
      have hio : s.isOpen = true := hpost _ hmem rfl
      have hPpos : 0 < s.callers.countP (fun c => c.1 == OpenPC.postOpen) :=
        countP_pos_of_mem_pc s.callers OpenPC.postOpen (OpenPC.postOpen, true) hmem rfl
      have hRP : s.callers.countP (fun c => c.1 == OpenPC.reading) +
          s.callers.countP (fun c => c.1 == OpenPC.postOpen) ≤ 1 := hrdrs
      have hP1 : s.callers.countP (fun c => c.1 == OpenPC.postOpen) = 1 := by omega
      have hR0 : s.callers.countP (fun c => c.1 == OpenPC.reading) = 0 := by omega
      have eR := countP_set_same (fun c => c.1 == OpenPC.reading) s.callers i
        (OpenPC.postOpen, true) (OpenPC.done, true) hc (by decide)
      have eP := countP_set_pred (fun c => c.1 == OpenPC.postOpen) s.callers i
        (OpenPC.postOpen, true) (OpenPC.done, true) hc (by decide) (by decide)
      have eR0 : (s.callers.set i (OpenPC.done, true)).countP
          (fun c => c.1 == OpenPC.reading) = 0 := by omega
      have eP0 : (s.callers.set i (OpenPC.done, true)).countP
          (fun c => c.1 == OpenPC.postOpen) = 0 := by omega
      dsimp only [OpenInv, withPC, readersCount]
      rw [eR0, eP0]
      refine ⟨hdid, hopen, ?_, by omega, ?_, ?_, ?_, ?_, ?_, ?_⟩
      · constructor
        · intro hcontra
          cases hcontra
        · intro hcontra
          cases hcontra
      · intro c hcm
        rcases List.mem_or_eq_of_mem_set hcm with hold | hnew
        · exact hoks c hold
        · rw [hnew]
      · intro c hcm hcr
        exact absurd hcr (not_pc_of_countP_zero _ OpenPC.reading eR0 c hcm)
      · intro c hcm _
        exact hio
      · intro c hcm _
        exact Or.inr hio
      · intro c hcm _
        exact hio
      · intro c hcm
        rcases List.mem_or_eq_of_mem_set hcm with hold | hnew
        · exact hfail c hold
        · rw [hnew]
          intro hcontra
          cases hcontra
    | done =>
      dsimp only
      exact ⟨hdid, hopen, hflight, hrdrs, hoks, hread, hpost, hwait, hdone, hfail⟩
    | failed =>
      dsimp only
      exact ⟨hdid, hopen, hflight, hrdrs, hoks, hread, hpost, hwait, hdone, hfail⟩

theorem openRun_inv (sched : List Nat) :
    ∀ s : OpenFlight, OpenInv s → OpenInv (openRun s sched) := by
  induction sched with
  | nil =>
    intro s h
    exact h
  | cons j t ih =>
    intro s h
    exact ih _ (openStep_inv s j h)

theorem openInit_inv (n : Nat) : OpenInv (openInit n) := by
  simp [OpenInv, openInit, readersCount, List.countP_replicate, List.mem_replicate]

theorem openStep_callers_length (s : OpenFlight) (i : Nat) :
    (openStep s i).callers.length = s.callers.length := by
  unfold openStep
  cases hc : s.callers.get? i with
  | none => rfl
  | some c =>
    obtain ⟨pc, ok⟩ := c
    cases pc <;> dsimp only [withPC] <;>
      (repeat' split) <;> simp [List.length_set]

theorem openRun_callers_length (sched : List Nat) :
    ∀ s : OpenFlight, (openRun s sched).callers.length = s.callers.length := by
  induction sched with
  | nil =>
    intro s
    rfl
  | cons j t ih =>
    intro s
    show (openRun (openStep s j) t).callers.length = s.callers.length
    rw [ih (openStep s j), openStep_callers_length]

/-- Claim C2: for a URI not yet open, under any cooperative interleaving of
any number of concurrent `ensureFileOpen` callers whose reads succeed, at
most one `didOpen` notification is sent — exactly one once every caller has
returned — and a caller suspended in the in-flight wait loop either keeps
waiting or proceeds as already-open; it never issues its own open. -/
theorem C2_single_flight_one_didOpen (n : Nat) (sched : List Nat) :
    (openRun (openInit n) sched).didOpens ≤ 1 ∧
    (OpenAllDone (openRun (openInit n) sched) → 1 ≤ n →
      (openRun (openInit n) sched).didOpens = 1) ∧
    (∀ (i : Nat) (c : OpenPC × Bool),
      (openRun (openInit n) sched).callers.get? i = some c →
      c.1 = OpenPC.waiting →
        (openStep (openRun (openInit n) sched) i).didOpens
            = (openRun (openInit n) sched).didOpens ∧
        ∀ c', (openStep (openRun (openInit n) sched) i).callers.get? i = some c' →
          (c'.1 = OpenPC.waiting ∨ c'.1 = OpenPC.done)) := by
  have hinv := openRun_inv sched (openInit n) (openInit_inv n)
  obtain ⟨hdid, hopen, hflight, hrdrs, hoks, hread, hpost, hwait, hdone, hfail⟩ := hinv
  refine ⟨hdid, ?_, ?_⟩
  · intro hall hn
    have hlen : (openRun (openInit n) sched).callers.length = n := by
      rw [openRun_callers_length]
      exact List.length_replicate n _
    have hne : (openRun (openInit n) sched).callers ≠ [] := by
      intro h0
      rw [h0] at hlen
      simp at hlen
      omega
    obtain ⟨c, hcm⟩ := List.exists_mem_of_ne_nil _ hne
    exact hopen.1 (hdone c hcm (hall c hcm))
  · intro i c hgc hcw
    obtain ⟨pc, okc⟩ := c
    have hokc : okc = true := hoks _ (List.get?_mem hgc)
    subst hokc
    cases hcw
    have hlt : i < (openRun (openInit n) sched).callers.length := by
      obtain ⟨hl, _⟩ := List.get?_eq_some.1 hgc
      exact hl
    rcases hwait _ (List.get?_mem hgc) rfl with hf | ho
    · constructor
      · unfold openStep
        rw [hgc]
        dsimp only
        rw [if_pos hf]
      · intro c' hc'
        unfold openStep at hc'
        rw [hgc] at hc'
        dsimp only at hc'
        rw [if_pos hf] at hc'
        rw [hgc] at hc'
        injection hc' with hceq
        rw [← hceq]
        exact Or.inl rfl
    · by_cases hf : (openRun (openInit n) sched).inFlight = true
      · constructor
        · unfold openStep
          rw [hgc]
          dsimp only
          rw [if_pos hf]
        · intro c' hc'
          unfold openStep at hc'
          rw [hgc] at hc'
          dsimp only at hc'
          rw [if_pos hf] at hc'
          rw [hgc] at hc'
          injection hc' with hceq
          rw [← hceq]
          exact Or.inl rfl
      · constructor
        · unfold openStep
          rw [hgc]
          dsimp only
          rw [if_neg hf, if_pos ho]
          rfl
        · intro c' hc'
          unfold openStep at hc'
          rw [hgc] at hc'
          dsimp only at hc'
          rw [if_neg hf, if_pos ho] at hc'
          dsimp only [withPC] at hc'
          rw [List.get?_set_eq_of_lt _ hlt] at hc'
          injection hc' with hceq
          rw [← hceq]
          exact Or.inr rfl

/-- Witness for C2: two concurrent callers under a concrete schedule; both
finish and exactly one `didOpen` is sent. -/
theorem C2_single_flight_one_didOpen_witness :
    OpenAllDone (openRun (openInit 2) [0, 1, 0, 0, 1]) ∧
    (openRun (openInit 2) [0, 1, 0, 0, 1]).didOpens = 1 :=
  ⟨by decide,
    (C2_single_flight_one_didOpen 2 [0, 1, 0, 0, 1]).2.1 (by decide) (by decide)⟩

/-! ## Lemmas: the lazy-initialization invariant is preserved by every step -/

theorem no_initializer_of_countP_zero (l : List InitPC)
    (h : l.countP (fun pc => pc == InitPC.initializing || pc == InitPC.indexing) = 0) :
    ∀ pc ∈ l, pc ≠ InitPC.initializing ∧ pc ≠ InitPC.indexing := by
  intro pc hm
  constructor <;> intro heq <;>
    apply List.countP_eq_zero.1 h pc hm <;> rw [heq] <;> rfl

theorem countP_pos_of_mem_initializer (l : List InitPC) (pc : InitPC) (hm : pc ∈ l)
    (h : pc = InitPC.initializing ∨ pc = InitPC.indexing) :
    0 < l.countP (fun pc => pc == InitPC.initializing || pc == InitPC.indexing) := by
  refine List.countP_pos_iff.2 ⟨pc, hm, ?_⟩
  rcases h with heq | heq <;> rw [heq] <;> rfl

theorem initStep_inv (s : InitFlight) (i : Nat) (h : InitInv s) :
    InitInv (initStep s i) := by
  obtain ⟨hspawn, hspawniff, hflight, hinits, hawait, hindex, hdone, hfail, hshut⟩ := h
  unfold initStep
  cases hc : s.callers.get? i with
  | none => exact ⟨hspawn, hspawniff, hflight, hinits, hawait, hindex, hdone, hfail, hshut⟩
  | some pc =>
    have hmem : pc ∈ s.callers := List.get?_mem hc
    cases pc with
    | start =>
      dsimp only
      rw [if_neg (by rw [hshut]; exact Bool.false_ne_true)]
      by_cases hr : s.ready = true
      · rw [if_pos hr]
        have eI := countP_set_same
          (fun pc => pc == InitPC.initializing || pc == InitPC.indexing) s.callers i
          InitPC.start InitPC.done hc (by decide)
        dsimp only [InitInv, withInitPC, initializersCount] at *
        rw [eI]
        refine ⟨hspawn, hspawniff, hflight, hinits, ?_, ?_, ?_, ?_, hshut⟩ <;>
          intro pc hcm <;>
          rcases List.mem_or_eq_of_mem_set hcm with hold | hnew
        · exact hawait pc hold
        · rw [hnew]
          intro hcontra
          cases hcontra
        · exact hindex pc hold
        · rw [hnew]
          intro hcontra
          cases hcontra
        · exact hdone pc hold
        · intro _
          exact hr
        · exact hfail pc hold
        · rw [hnew]
          intro hcontra
          cases hcontra
      · rw [if_neg hr]
        by_cases hf : s.initInFlight = true
        · rw [if_pos hf]
          have eI := countP_set_same
            (fun pc => pc == InitPC.initializing || pc == InitPC.indexing) s.callers i
            InitPC.start InitPC.awaitingInit hc (by decide)
          dsimp only [InitInv, withInitPC, initializersCount] at *
          rw [eI]
          refine ⟨hspawn, hspawniff, hflight, hinits, ?_, ?_, ?_, ?_, hshut⟩ <;>
            intro pc hcm <;>
            rcases List.mem_or_eq_of_mem_set hcm with hold | hnew
          · exact hawait pc hold
          · intro _
            exact Or.inl hf
          · exact hindex pc hold
          · rw [hnew]
            intro hcontra
            cases hcontra
          · exact hdone pc hold
          · rw [hnew]
            intro hcontra
            cases hcontra
          · exact hfail pc hold
          · rw [hnew]
            intro hcontra
            cases hcontra
        · rw [if_neg hf]
          have hrf : s.ready = false := Bool.not_eq_true _ ▸ eq_false_of_ne_true hr
          have hff : s.initInFlight = false := Bool.not_eq_true _ ▸ eq_false_of_ne_true hf
          have hspawn0 : s.spawnCount = 0 := by
            rcases Nat.lt_or_ge s.spawnCount 1 with h1 | h1
            · omega
            · exfalso
              have h2 : s.spawnCount = 1 := Nat.le_antisymm hspawn h1
              rcases hspawniff.1 h2 with hfl | hrd
              · rw [hfl] at hff
                cases hff
              · rw [hrd] at hrf
                cases hrf
          have hcnt0 : initializersCount s = 0 := by
            rcases Nat.lt_or_ge (initializersCount s) 1 with h1 | h1
            · omega
            · exfalso
              have h2 : initializersCount s = 1 := Nat.le_antisymm hinits h1
              rw [hflight.2 h2] at hff
              cases hff
          have eI := countP_set_succ
            (fun pc => pc == InitPC.initializing || pc == InitPC.indexing) s.callers i
            InitPC.start InitPC.initializing hc (by decide) (by decide)
          dsimp only [InitInv, withInitPC, initializersCount] at *
          rw [eI, hcnt0, hspawn0]
          refine ⟨by omega, ?_, ?_, by omega, ?_, ?_, ?_, ?_, hshut⟩
          · constructor
            · intro _
              exact Or.inl rfl
            · intro _
              rfl
          · constructor
            · intro _
              rfl
            · intro _
              rfl
          · intro pc hcm _
            exact Or.inl rfl
          · intro pc hcm hpi
            rcases List.mem_or_eq_of_mem_set hcm with hold | hnew
            · exact absurd hpi (no_initializer_of_countP_zero s.callers hcnt0 pc hold).2
            · rw [hnew] at hpi
              cases hpi
          · intro pc hcm hpd
            rcases List.mem_or_eq_of_mem_set hcm with hold | hnew
            · exact absurd (hdone pc hold hpd) hr
            · rw [hnew] at hpd
              cases hpd
          · intro pc hcm
            rcases List.mem_or_eq_of_mem_set hcm with hold | hnew
            · exact hfail pc hold
            · rw [hnew]
              intro hcontra
              cases hcontra
    | awaitingInit =>
      dsimp only
      by_cases hf : s.initInFlight = true
      · rw [if_pos hf]
        exact ⟨hspawn, hspawniff, hflight, hinits, hawait, hindex, hdone, hfail, hshut⟩
      · rw [if_neg hf]
        have hrd : s.ready = true := by
          rcases hawait _ hmem rfl with hfl | hrd
          · exact absurd hfl hf
          · exact hrd
        have eI := countP_set_same
          (fun pc => pc == InitPC.initializing || pc == InitPC.indexing) s.callers i
          InitPC.awaitingInit InitPC.done hc (by decide)
        dsimp only [InitInv, withInitPC, initializersCount] at *
        rw [eI]
        refine ⟨hspawn, hspawniff, hflight, hinits, ?_, ?_, ?_, ?_, hshut⟩ <;>
          intro pc hcm <;>
          rcases List.mem_or_eq_of_mem_set hcm with hold | hnew
        · exact hawait pc hold
        · rw [hnew]
          intro hcontra
          cases hcontra
        · exact hindex pc hold
        · rw [hnew]
          intro hcontra
          cases hcontra
        · exact hdone pc hold
        · intro _
          exact hrd
        · exact hfail pc hold
        · rw [hnew]
          intro hcontra
          cases hcontra
    | initializing =>
      dsimp only
      have hpos : 0 < initializersCount s :=
        countP_pos_of_mem_initializer s.callers InitPC.initializing hmem (Or.inl rfl)
      have hcnt1 : initializersCount s = 1 := Nat.le_antisymm hinits hpos
      have hfl : s.initInFlight = true := hflight.2 hcnt1
      have hsp1 : s.spawnCount = 1 := hspawniff.2 (Or.inl hfl)
      have eI := countP_set_same
        (fun pc => pc == InitPC.initializing || pc == InitPC.indexing) s.callers i
        InitPC.initializing InitPC.indexing hc (by decide)
      dsimp only [InitInv, withInitPC, initializersCount] at *
      rw [eI]
      refine ⟨hspawn, ?_, hflight, hinits, ?_, ?_, ?_, ?_, hshut⟩
      · constructor
        · intro _
          exact Or.inr rfl
        · intro _
          exact hsp1
      · intro pc hcm _
        exact Or.inl hfl
      · intro pc hcm _
        rfl
      · intro pc hcm _
        rfl
      · intro pc hcm
        rcases List.mem_or_eq_of_mem_set hcm with hold | hnew
        · exact hfail pc hold
        · rw [hnew]
          intro hcontra
          cases hcontra
    | indexing =>
      dsimp only
      have hpos : 0 < initializersCount s :=
        countP_pos_of_mem_initializer s.callers InitPC.indexing hmem (Or.inr rfl)
      have hcnt1 : initializersCount s = 1 := Nat.le_antisymm hinits hpos
      have hfl : s.initInFlight = true := hflight.2 hcnt1
      have hsp1 : s.spawnCount = 1 := hspawniff.2 (Or.inl hfl)
      have hrd : s.ready = true := hindex _ hmem rfl
      have eI := countP_set_pred
        (fun pc => pc == InitPC.initializing || pc == InitPC.indexing) s.callers i
        InitPC.indexing InitPC.done hc (by decide) (by decide)
      have eI0 : (s.callers.set i InitPC.done).countP
          (fun pc => pc == InitPC.initializing || pc == InitPC.indexing) = 0 := by
        dsimp only [initializersCount] at hcnt1
        omega
      dsimp only [InitInv, withInitPC, initializersCount] at *
      rw [eI0]
      refine ⟨hspawn, ?_, ?_, by omega, ?_, ?_, ?_, ?_, hshut⟩
      · constructor
        · intro _
          exact Or.inr hrd
        · intro _
          exact hsp1
      · constructor
        · intro hcontra
          cases hcontra
        · intro hcontra
          cases hcontra
      · intro pc hcm _
        exact Or.inr hrd
      · intro pc hcm _
        exact hrd
      · intro pc hcm _
        exact hrd
      · intro pc hcm
        rcases List.mem_or_eq_of_mem_set hcm with hold | hnew
        · exact hfail pc hold
        · rw [hnew]
          intro hcontra
          cases hcontra
    | done =>
      dsimp only
      exact ⟨hspawn, hspawniff, hflight, hinits, hawait, hindex, hdone, hfail, hshut⟩
    | errored =>
      dsimp only
      exact ⟨hspawn, hspawniff, hflight, hinits, hawait, hindex, hdone, hfail, hshut⟩

theorem initRun_inv (sched : List Nat) :
    ∀ s : InitFlight, InitInv s → InitInv (initRun s sched) := by
  induction sched with
  | nil =>
    intro s h
    exact h
  | cons j t ih =>
    intro s h
    exact ih _ (initStep_inv s j h)

theorem initStart_inv (n : Nat) : InitInv (initStart n) := by
  simp [InitInv, initStart, initializersCount, List.countP_replicate, List.mem_replicate]

theorem initStep_callers_length (s : InitFlight) (i : Nat) :
    (initStep s i).callers.length = s.callers.length := by
  unfold initStep
  cases hc : s.callers.get? i with
  | none => rfl
  | some pc =>
    cases pc <;> dsimp only [withInitPC] <;>
      (repeat' split) <;> simp [List.length_set]

theorem initRun_callers_length (sched : List Nat) :
    ∀ s : InitFlight, (initRun s sched).callers.length = s.callers.length := by
  induction sched with
  | nil =>
    intro s
    rfl
  | cons j t ih =>
    intro s
    show (initRun (initStep s j) t).callers.length = s.callers.length
    rw [ih (initStep s j), initStep_callers_length]

/-- Claim C4: under any cooperative interleaving of concurrent
`ensureClangdInitialized` callers arriving before the subprocess is ready,
at most one subprocess is spawned — exactly one once every caller has
returned — and a caller arriving while initialization is in flight and the
manager is not yet ready attaches to the shared in-flight promise instead
of spawning a second subprocess. -/
theorem C4_single_flight_initialization (n : Nat) (sched : List Nat) :
    (initRun (initStart n) sched).spawnCount ≤ 1 ∧
    (InitAllDone (initRun (initStart n) sched) → 1 ≤ n →
      (initRun (initStart n) sched).spawnCount = 1) ∧
    (∀ i : Nat, (initRun (initStart n) sched).callers.get? i = some InitPC.start →
      (initRun (initStart n) sched).initInFlight = true →
      (initRun (initStart n) sched).ready = false →
        (initStep (initRun (initStart n) sched) i).spawnCount
            = (initRun (initStart n) sched).spawnCount ∧
        (initStep (initRun (initStart n) sched) i).callers.get? i
            = some InitPC.awaitingInit) := by
  have hinv := initRun_inv sched (initStart n) (initStart_inv n)
  obtain ⟨hspawn, hspawniff, hflight, hinits, hawait, hindex, hdone, hfail, hshut⟩ := hinv
  refine ⟨hspawn, ?_, ?_⟩
  · intro hall hn
    have hlen : (initRun (initStart n) sched).callers.length = n := by
      rw [initRun_callers_length]
      exact List.length_replicate n _
    have hne : (initRun (initStart n) sched).callers ≠ [] := by
      intro h0
      rw [h0] at hlen
      simp at hlen
      omega
    obtain ⟨pc, hcm⟩ := List.exists_mem_of_ne_nil _ hne
    exact hspawniff.2 (Or.inr (hdone pc hcm (hall pc hcm)))
  · intro i hgc hf hr
    have hlt : i < (initRun (initStart n) sched).callers.length := by
      obtain ⟨hl, _⟩ := List.get?_eq_some.1 hgc
      exact hl
    constructor
    · unfold initStep
      rw [hgc]
      dsimp only
      rw [if_neg (by rw [hshut]; exact Bool.false_ne_true),
        if_neg (by rw [hr]; exact Bool.false_ne_true), if_pos hf]
      rfl
    · unfold initStep
      rw [hgc]
      dsimp only
      rw [if_neg (by rw [hshut]; exact Bool.false_ne_true),
        if_neg (by rw [hr]; exact Bool.false_ne_true), if_pos hf]
      dsimp only [withInitPC]
      rw [List.get?_set_eq_of_lt _ hlt]

/-- Witness for C4: two concurrent callers under a concrete schedule; both
finish and exactly one subprocess is spawned. -/
theorem C4_single_flight_initialization_witness :
    InitAllDone (initRun (initStart 2) [0, 1, 0, 0, 1]) ∧
    (initRun (initStart 2) [0, 1, 0, 0, 1]).spawnCount = 1 :=
  ⟨by decide,
    (C4_single_flight_initialization 2 [0, 1, 0, 0, 1]).2.1 (by decide) (by decide)⟩

/-! ## Lemmas: the tool-call handler -/

/-- Claim C5: a tool call whose arguments fail validation produces the
structured validation error before clangd initialization is attempted and
before any message is sent to the subprocess (the effect list is empty),
and the failure is not retried — the handler returns at once. -/
theorem C5_validation_error_precedes_init (name : String) (args : JSVal)
    (initOutcome : Except String Unit) (toolOutcome : Except String String)
    (diagCacheReady : Bool) (m : String)
    (h : validateToolArgs name args = .error m) :
    (handleToolCall name args initOutcome toolOutcome diagCacheReady).2 = [] ∧
    (handleToolCall name args initOutcome toolOutcome diagCacheReady).1.isError = true ∧
    ∃ m', (handleToolCall name args initOutcome toolOutcome diagCacheReady).1.content
        = [.errorJson true m'] ∧
      (m' = m ∨ m' = "Missing arguments for tool call") := by
  unfold handleToolCall
  by_cases ht : args.truthy = true
  · have hb : handleBody name args initOutcome toolOutcome diagCacheReady
        = (.error m, []) := by
      unfold handleBody
      rw [ht]
      simp [h]
    rw [hb]
    exact ⟨rfl, rfl, m, rfl, Or.inl rfl⟩
  · have hf : args.truthy = false := Bool.not_eq_true _ ▸ eq_false_of_ne_true ht
    have hb : handleBody name args initOutcome toolOutcome diagCacheReady
        = (.error "Missing arguments for tool call", []) := by
      unfold handleBody
      rw [hf]
      simp
    rw [hb]
    exact ⟨rfl, rfl, "Missing arguments for tool call", rfl, Or.inr rfl⟩

/-- Witness for C5: a `find_definition` call with a negative line number is
rejected with the validation error and an empty effect list. -/
theorem C5_validation_error_precedes_init_witness :
    validateToolArgs "find_definition"
        (.vObj [("file_path", .vStr "/a.cpp"), ("line", .vNum (-1)), ("column", .vNum 0)])
      = .error "Invalid line: must be a non-negative integer" ∧
    ((handleToolCall "find_definition"
        (.vObj [("file_path", .vStr "/a.cpp"), ("line", .vNum (-1)), ("column", .vNum 0)])
        (.ok ()) (.ok "r") true).2 = [] ∧
      (handleToolCall "find_definition"
        (.vObj [("file_path", .vStr "/a.cpp"), ("line", .vNum (-1)), ("column", .vNum 0)])
        (.ok ()) (.ok "r") true).1.isError = true ∧
      ∃ m', (handleToolCall "find_definition"
        (.vObj [("file_path", .vStr "/a.cpp"), ("line", .vNum (-1)), ("column", .vNum 0)])
        (.ok ()) (.ok "r") true).1.content = [.errorJson true m'] ∧
        (m' = "Invalid line: must be a non-negative integer" ∨
          m' = "Missing arguments for tool call")) :=
  ⟨by rfl,
    C5_validation_error_precedes_init "find_definition"
      (.vObj [("file_path", .vStr "/a.cpp"), ("line", .vNum (-1)), ("column", .vNum 0)])
      (.ok ()) (.ok "r") true "Invalid line: must be a non-negative integer" (by rfl)⟩

/-- Claim C6: every invocation of the tool-call handler returns a structured
result — a success content payload, or the JSON body carrying `error: true`
and the thrown message together with the `isError` flag. The handler is a
total function of the request and the outcomes of its fallible steps: no
error escapes it, so the hosting process survives any single tool-level
failure and can serve subsequent calls. -/
theorem C6_handler_returns_structured_result (name : String) (args : JSVal)
    (initOutcome : Except String Unit) (toolOutcome : Except String String)
    (diagCacheReady : Bool) :
    (∃ s, (handleToolCall name args initOutcome toolOutcome diagCacheReady).1
        = ⟨[.text s], false⟩) ∨
    (∃ m, (handleToolCall name args initOutcome toolOutcome diagCacheReady).1
        = ⟨[.errorJson true m], true⟩) := by
  unfold handleToolCall
  rcases hb : handleBody name args initOutcome toolOutcome diagCacheReady with ⟨res, effs⟩
  cases res with
  | ok s =>
    exact Or.inl ⟨s, rfl⟩
  | error m =>
    exact Or.inr ⟨m, rfl⟩

/-! ## Lemmas: the debounced watcher -/

theorem debounceEvent_arm (d t : Nat) (h : t < d) :
    debounceEvent (some d) t false = (some (t + 1000), []) := by
  have hn : ¬d ≤ t := Nat.not_le.2 h
  simp [debounceEvent, debounceFlush, hn]

theorem debounceEvent_shutdown (armed : Option Nat) (t : Nat) :
    debounceEvent armed t true = debounceFlush armed t := rfl

theorem debounceRun_burst (ts : List Nat) :
    ∀ (t0 : Nat), gapsOk (t0 :: ts) = true →
      ∀ (acc : List Nat) (armed : Option Nat),
        (armed = none ∨ ∃ d, armed = some d ∧ t0 < d) →
        debounceRun (armed, acc) ((t0 :: ts).map (fun t => (t, false)))
          = (some ((t0 :: ts).getLast (List.cons_ne_nil t0 ts) + 1000), acc) := by
  induction ts with
  | nil =>
    intro t0 _ acc armed harm
    have hev : debounceEvent armed t0 false = (some (t0 + 1000), []) := by
      rcases harm with hn | ⟨d, hd, hlt⟩
      · rw [hn]
        rfl
      · rw [hd]
        exact debounceEvent_arm d t0 hlt
    simp [debounceRun, hev]
  | cons t1 rest ih =>
    intro t0 hg acc armed harm
    have hg1 : t1 < t0 + 1000 ∧ gapsOk (t1 :: rest) = true := by
      have := hg
      simp only [gapsOk, Bool.and_eq_true, decide_eq_true_eq] at this
      exact this
    have hev : debounceEvent armed t0 false = (some (t0 + 1000), []) := by
      rcases harm with hn | ⟨d, hd, hlt⟩
      · rw [hn]
        rfl
      · rw [hd]
        exact debounceEvent_arm d t0 hlt
    have hstep : debounceRun (armed, acc) ((t0 :: t1 :: rest).map (fun t => (t, false)))
        = debounceRun (some (t0 + 1000), acc) ((t1 :: rest).map (fun t => (t, false))) := by
      simp [debounceRun, hev]
    rw [hstep]
    rw [ih t1 hg1.2 acc (some (t0 + 1000)) (Or.inr ⟨t0 + 1000, rfl, hg1.1⟩)]
    rw [List.getLast_cons (List.cons_ne_nil t1 rest)]

/-- Claim C7: each change event on the compile_commands.json watcher cancels
the previously armed timer and arms a single new 1000 ms deadline, so within
a burst whose gaps are under the window only the last event triggers the
re-index action; an event arriving while the server is shutting down arms
and cancels nothing beyond pure time passage. -/
theorem C7_debounced_reindex :
    (∀ d t : Nat, t < d → debounceEvent (some d) t false = (some (t + 1000), [])) ∧
    (∀ (armed : Option Nat) (t : Nat), debounceEvent armed t true = debounceFlush armed t) ∧
    (∀ (t0 : Nat) (ts : List Nat), gapsOk (t0 :: ts) = true →
      debounceTrace (t0 :: ts) = [(t0 :: ts).getLast (List.cons_ne_nil t0 ts) + 1000]) := by
  refine ⟨debounceEvent_arm, debounceEvent_shutdown, ?_⟩
  intro t0 ts hg
  unfold debounceTrace
  rw [debounceRun_burst ts t0 hg [] none (Or.inl rfl)]
  rfl

/-- Witness for C7: a burst of three events inside the window fires exactly
once, one second after the last event; the arm and shutdown clauses at
concrete inputs. -/
theorem C7_debounced_reindex_witness :
    (600 < 1500 ∧ debounceEvent (some 1500) 600 false = (some 1600, [])) ∧
    debounceEvent none 700 true = debounceFlush none 700 ∧
    (gapsOk [0, 500, 999] = true ∧ debounceTrace [0, 500, 999] = [1999]) :=
  ⟨⟨by decide, C7_debounced_reindex.1 1500 600 (by decide)⟩,
    C7_debounced_reindex.2.1 none 700,
    by decide, C7_debounced_reindex.2.2 0 [500, 999] (by decide)⟩

/-! ## Lemmas: the source-file detector -/

theorem isPrefixOf_trans_chars :
    ∀ (c b a : List Char), List.isPrefixOf c b = true →
      List.isPrefixOf b a = true → List.isPrefixOf c a = true := by
  intro c
  induction c with
  | nil =>
    intro b a _ _
    cases a <;> simp [List.isPrefixOf]
  | cons x xs ih =>
    intro b a h1 h2
    cases b with
    | nil => simp [List.isPrefixOf] at h1
    | cons y ys =>
      cases a with
      | nil => simp [List.isPrefixOf] at h2
      | cons z zs =>
        simp only [List.isPrefixOf, Bool.and_eq_true, beq_iff_eq] at h1 h2 ⊢
        exact ⟨h1.1.trans h2.1, ih ys zs h1.2 h2.2⟩

theorem jsStartsWith_trans (a b c : String) (h1 : jsStartsWith a b = true)
    (h2 : jsStartsWith b c = true) : jsStartsWith a c = true :=
  isPrefixOf_trans_chars c.data b.data a.data h2 h1

theorem detectStep_cases (projectRoot : String) (allExcludes : List String)
    (resolvePath : String → String → String) (acc : List String)
    (cmd : CompileCommand) :
    detectStep projectRoot allExcludes resolvePath acc cmd = acc ∨
    ∃ fp, detectStep projectRoot allExcludes resolvePath acc cmd = acc ++ [fp] ∧
      fp ∉ acc ∧ jsStartsWith fp projectRoot = true ∧ hasSourceExt fp = true ∧
      isExcludedPath projectRoot allExcludes fp = false := by
  unfold detectStep
  dsimp only
  set fp := if jsStartsWith cmd.file "/" = true then cmd.file
    else resolvePath cmd.directory cmd.file with hfp
  by_cases h1 : jsStartsWith fp projectRoot = true
  · rw [if_neg (by simp [h1])]
    by_cases h2 : isExcludedPath projectRoot allExcludes fp = true
    · rw [if_pos h2]
      exact Or.inl rfl
    · have h2f : isExcludedPath projectRoot allExcludes fp = false :=
        Bool.not_eq_true _ ▸ eq_false_of_ne_true h2
      rw [if_neg h2]
      by_cases h3 : hasSourceExt fp = true
      · rw [if_pos h3]
        by_cases h4 : fp ∈ acc
        · rw [if_pos h4]
          exact Or.inl rfl
        · rw [if_neg h4]
          exact Or.inr ⟨fp, rfl, h4, h1, h3, h2f⟩
      · rw [if_neg h3]
        exact Or.inl rfl
  · have h1f : jsStartsWith fp projectRoot = false :=
      Bool.not_eq_true _ ▸ eq_false_of_ne_true h1
    rw [if_pos (by simp [h1f])]
    exact Or.inl rfl

theorem detect_fold_inv (projectRoot : String) (allExcludes : List String)
    (resolvePath : String → String → String) :
    ∀ (cmds : List CompileCommand) (acc : List String),
      (∀ p ∈ acc, jsStartsWith p projectRoot = true ∧ hasSourceExt p = true ∧
        isExcludedPath projectRoot allExcludes p = false) →
      acc.Nodup →
      (∀ p ∈ cmds.foldl (detectStep projectRoot allExcludes resolvePath) acc,
        jsStartsWith p projectRoot = true ∧ hasSourceExt p = true ∧
        isExcludedPath projectRoot allExcludes p = false) ∧
      (cmds.foldl (detectStep projectRoot allExcludes resolvePath) acc).Nodup := by
  intro cmds
  induction cmds with
  | nil =>
    intro acc hprops hnd
    exact ⟨hprops, hnd⟩
  | cons cmd rest ih =>
    intro acc hprops hnd
    rcases detectStep_cases projectRoot allExcludes resolvePath acc cmd with heq |
      ⟨fp, heq, hnotm, hroot, hext, hexc⟩
    · rw [List.foldl_cons, heq]
      exact ih acc hprops hnd
    · rw [List.foldl_cons, heq]
      refine ih (acc ++ [fp]) ?_ ?_
      · intro p hp
        rcases List.mem_append.1 hp with hpa | hpf
        · exact hprops p hpa
        · have : p = fp := by simpa using hpf
          rw [this]
          exact ⟨hroot, hext, hexc⟩
      · rw [List.nodup_append]
        exact ⟨hnd, List.nodup_singleton fp, by simpa using hnotm⟩

/-- Claim C8: every path returned by `detectCMakeSources` starts with the
project root (hence is absolute whenever the root is), matches the
source-extension pattern (headers excluded), is not under any default or
caller-supplied excluded prefix, and the list has no duplicates; if
compile_commands.json is missing or unparsable the result is the empty
list. -/
theorem C8_detectCMakeSources_postconditions (projectRoot : String)
    (excludePaths : List String) (resolvePath : String → String → String)
    (commandsData : Option (List CompileCommand)) :
    (∀ p ∈ detectCMakeSources projectRoot excludePaths resolvePath commandsData,
        jsStartsWith p projectRoot = true ∧
        (jsStartsWith projectRoot "/" = true → jsStartsWith p "/" = true) ∧
        hasSourceExt p = true ∧
        isExcludedPath projectRoot (DEFAULT_EXCLUDE_PATHS ++ excludePaths) p = false) ∧
    (detectCMakeSources projectRoot excludePaths resolvePath commandsData).Nodup ∧
    (commandsData = none →
      detectCMakeSources projectRoot excludePaths resolvePath commandsData = []) := by
  cases commandsData with
  | none =>
    refine ⟨?_, ?_, ?_⟩
    · intro p hp
      cases hp
    · exact List.nodup_nil
    · intro _
      rfl
  | some commands =>
    have hmain := detect_fold_inv projectRoot (DEFAULT_EXCLUDE_PATHS ++ excludePaths)
      resolvePath commands [] (by intro p hp; cases hp) List.nodup_nil
    refine ⟨?_, hmain.2, ?_⟩
    · intro p hp
      obtain ⟨hroot, hext, hexc⟩ := hmain.1 p hp
      exact ⟨hroot, fun habs => jsStartsWith_trans p projectRoot "/" hroot habs, hext, hexc⟩
    · intro hcontra
      cases hcontra

/-- Witness for C8 on a concrete compile_commands list: an in-root source
survives once; a file outside the root, a file under third_party/, and a
duplicate are all dropped. -/
theorem C8_detectCMakeSources_postconditions_witness :
    "/proj/a.cpp" ∈ detectCMakeSources "/proj" []
        (fun d f => d ++ "/" ++ f)
        (some [⟨"/proj/a.cpp", "/proj"⟩, ⟨"/other/b.c", "/other"⟩,
          ⟨"/proj/third_party/x.cpp", "/proj"⟩, ⟨"/proj/a.cpp", "/proj"⟩]) ∧
    (jsStartsWith "/proj/a.cpp" "/proj" = true ∧
      (jsStartsWith "/proj" "/" = true → jsStartsWith "/proj/a.cpp" "/" = true) ∧
      hasSourceExt "/proj/a.cpp" = true ∧
      isExcludedPath "/proj" (DEFAULT_EXCLUDE_PATHS ++ []) "/proj/a.cpp" = false) :=
  ⟨by decide,
    (C8_detectCMakeSources_postconditions "/proj" [] (fun d f => d ++ "/" ++ f)
      (some [⟨"/proj/a.cpp", "/proj"⟩, ⟨"/other/b.c", "/other"⟩,
        ⟨"/proj/third_party/x.cpp", "/proj"⟩, ⟨"/proj/a.cpp", "/proj"⟩])).1
      "/proj/a.cpp" (by decide)⟩

/-! ## Lemmas: workspace symbol search -/

theorem projectFiltered_subset (u2p : String → String) (projectRoot : String)
    (includeExternal : Bool) (symbols : List SymbolInformation) :
    ∀ sym ∈ projectFiltered u2p projectRoot includeExternal symbols, sym ∈ symbols := by
  intro sym hs
  unfold projectFiltered at hs
  by_cases hcond : (!includeExternal && projectRoot != "") = true
  · rw [if_pos hcond] at hs
    exact (List.mem_filter.1 hs).1
  · rw [if_neg hcond] at hs
    exact hs

theorem excludeFiltered_sub (u2p : String → String) (projectRoot : String)
    (excludePaths : List String) (symbols : List SymbolInformation) :
    ∀ sym ∈ excludeFiltered u2p projectRoot excludePaths symbols, sym ∈ symbols := by
  intro sym hs
  unfold excludeFiltered at hs
  by_cases hcond : 0 < excludePaths.length
  · rw [if_pos hcond] at hs
    exact (List.mem_filter.1 hs).1
  · rw [if_neg hcond] at hs
    exact hs

theorem projectFiltered_in_root (u2p : String → String) (projectRoot : String)
    (symbols : List SymbolInformation) (hroot : projectRoot ≠ "") :
    ∀ sym ∈ projectFiltered u2p projectRoot false symbols,
      jsStartsWith (u2p sym.uri) projectRoot = true := by
  intro sym hs
  unfold projectFiltered at hs
  have hcond : (!false && projectRoot != "") = true := by
    simp [hroot]
  rw [if_pos hcond] at hs
  exact (List.mem_filter.1 hs).2

/-- Claim C9: post-conditions of `workspaceSymbolSearch`. In a `results`
payload: when `includeExternal` is off and the project root is non-empty,
every returned symbol's file starts with the project root; at most `limit`
symbols (default 100) are returned; `truncated` holds exactly when the
post-filter symbol count exceeds the limit and `count` is that post-filter
count. When no symbols survive filtering the result is `found: false` with
a message, not an empty symbol list. -/
theorem C9_workspaceSymbolSearch_postconditions (u2p : String → String)
    (kindName : Nat → Option String) (projectRoot : String)
    (opts : WorkspaceSymbolOptions) (symbols : List SymbolInformation) :
    (∀ (c r : Nat) (t : Bool) (ss : List FormattedSymbol),
      workspaceSymbolSearch u2p kindName projectRoot opts symbols = .results c r t ss →
        (opts.includeExternal.getD false = false → projectRoot ≠ "" →
          ∀ fs ∈ ss, jsStartsWith fs.file projectRoot = true) ∧
        ss.length ≤ opts.limit.getD 100 ∧
        r = ss.length ∧
        (t = true ↔ opts.limit.getD 100 <
          (excludeFiltered u2p projectRoot (opts.excludePaths.getD [])
            (projectFiltered u2p projectRoot (opts.includeExternal.getD false)
              symbols)).length) ∧
        c = (excludeFiltered u2p projectRoot (opts.excludePaths.getD [])
          (projectFiltered u2p projectRoot (opts.includeExternal.getD false)
            symbols)).length) ∧
    ((excludeFiltered u2p projectRoot (opts.excludePaths.getD [])
        (projectFiltered u2p projectRoot (opts.includeExternal.getD false)
          symbols)).length = 0 →
      ∃ msg, workspaceSymbolSearch u2p kindName projectRoot opts symbols
        = .notFound msg) := by
  unfold workspaceSymbolSearch
  dsimp only
  by_cases hz : (excludeFiltered u2p projectRoot (opts.excludePaths.getD [])
      (projectFiltered u2p projectRoot (opts.includeExternal.getD false)
        symbols)).length = 0
  · rw [if_pos hz]
    constructor
    · intro c r t ss heq
      cases heq
    · intro _
      exact ⟨_, rfl⟩
  · rw [if_neg hz]
    constructor
    · intro c r t ss heq
      injection heq with hc hr ht hss
      refine ⟨?_, ?_, ?_, ?_, hc.symm⟩
      · intro hext hroot fs hfs
        rw [← hss] at hfs
        obtain ⟨sym, hsym, hfmt⟩ := List.mem_map.1 hfs
        have hsym2 := List.take_subset _ _ hsym
        have hsym3 := excludeFiltered_sub u2p projectRoot _ _ sym hsym2
        rw [hext] at hsym3
        have := projectFiltered_in_root u2p projectRoot symbols hroot sym hsym3
        rw [← hfmt]
        exact this
      · rw [← hss, List.length_map]
        exact List.length_take_le _ _
      · rw [← hss, ← hr, List.length_map]
      · rw [← ht]
        exact decide_eq_true_iff
    · intro h0
      exact absurd h0 hz

/-- Witness for C9: one in-project and one external symbol; the result
returns the single surviving symbol, untruncated, with its file under the
project root. -/
theorem C9_workspaceSymbolSearch_postconditions_witness :
    workspaceSymbolSearch (fun s => s) (fun _ => some "Function") "/proj"
        ⟨"q", none, none, none⟩
        [⟨"foo", 12, "/proj/a.cpp", 3, 4, none⟩,
          ⟨"bar", 12, "/usr/include/x.h", 1, 2, none⟩]
      = .results 1 1 false
          [⟨"foo", "Function", "/proj/a.cpp", 3, 4, none, "/proj/a.cpp"⟩] ∧
    (WorkspaceSymbolOptions.mk "q" none none none).includeExternal.getD false = false ∧
    ("/proj" : String) ≠ "" ∧
    ∀ fs ∈ [FormattedSymbol.mk "foo" "Function" "/proj/a.cpp" 3 4 none "/proj/a.cpp"],
      jsStartsWith fs.file "/proj" = true :=
  ⟨by decide, by decide, by decide,
    ((C9_workspaceSymbolSearch_postconditions (fun s => s) (fun _ => some "Function")
        "/proj" ⟨"q", none, none, none⟩
        [⟨"foo", 12, "/proj/a.cpp", 3, 4, none⟩,
          ⟨"bar", 12, "/usr/include/x.h", 1, 2, none⟩]).1
      1 1 false [⟨"foo", "Function", "/proj/a.cpp", 3, 4, none, "/proj/a.cpp"⟩]
      (by decide)).1 (by decide) (by decide)⟩

/-! ## Lemmas: clangd argument generation -/

theorem isPrefixOf_append_eq_false (p a t : List Char)
    (h1 : List.isPrefixOf p a = false) (h2 : List.isPrefixOf a p = false) :
    List.isPrefixOf p (a ++ t) = false := by
  induction p generalizing a with
  | nil => simp [List.isPrefixOf] at h1
  | cons x xs ih =>
    cases a with
    | nil => simp [List.isPrefixOf] at h2
    | cons y ys =>
      simp only [List.cons_append, List.isPrefixOf, Bool.and_eq_false_iff] at h1 h2 ⊢
      rcases h1 with hxy | hxys
      · exact Or.inl hxy
      · rcases h2 with hyx | hysx
        · refine Or.inl ?_
          rcases Bool.eq_false_or_eq_true (x == y) with ht | hf
          · exfalso
            have hxy : x = y := by simpa using ht
            rw [hxy] at hyx
            simp at hyx
          · exact hf
        · exact Or.inr (ih ys hxys hysx)

theorem ccDirArgs_no_flag (compileCommandsPath : Option String) (p : String)
    (h1 : List.isPrefixOf p.data ("--compile-commands-dir=").data = false)
    (h2 : List.isPrefixOf ("--compile-commands-dir=").data p.data = false) :
    ∀ b ∈ ccDirArgs compileCommandsPath, jsStartsWith b p = false := by
  intro b hb
  cases compileCommandsPath with
  | none => cases hb
  | some q =>
    have hbq : b = "--compile-commands-dir=" ++ dirnameStr q := by
      simpa [ccDirArgs] using hb
    rw [hbq]
    show List.isPrefixOf p.data ("--compile-commands-dir=" ++ dirnameStr q).data = false
    rw [String.data_append]
    exact isPrefixOf_append_eq_false _ _ _ h1 h2

theorem log_default_no_flag (lv p : String)
    (h1 : List.isPrefixOf p.data ("--log=").data = false)
    (h2 : List.isPrefixOf ("--log=").data p.data = false) :
    jsStartsWith ("--log=" ++ lv) p = false := by
  show List.isPrefixOf p.data ("--log=" ++ lv).data = false
  rw [String.data_append]
  exact isPrefixOf_append_eq_false _ _ _ h1 h2

theorem addDefault_append_eq (args : List String) (pre d : String) :
    ∃ rest, addDefault args pre d = args ++ rest := by
  unfold addDefault
  by_cases h : args.any (fun a => jsStartsWith a pre) = true
  · rw [if_pos h]
    exact ⟨[], (List.append_nil args).symm⟩
  · rw [if_neg h]
    exact ⟨[d], rfl⟩

theorem mem_addDefault_of_mem (args : List String) (pre d b : String)
    (hb : b ∈ args) : b ∈ addDefault args pre d := by
  obtain ⟨rest, hr⟩ := addDefault_append_eq args pre d
  rw [hr]
  exact List.mem_append_left _ hb

theorem addDefault_appends (args : List String) (p d : String)
    (h : ∀ a ∈ args, jsStartsWith a p = false) :
    addDefault args p d = args ++ [d] := by
  unfold addDefault
  rw [if_neg]
  intro hany
  obtain ⟨a, ha, hap⟩ := List.any_eq_true.1 hany
  rw [h a ha] at hap
  cases hap

theorem addDefault_preserves_nostart (args : List String) (q e p : String)
    (hinv : ∀ b ∈ args, jsStartsWith b p = false)
    (he : jsStartsWith e p = false) :
    ∀ b ∈ addDefault args q e, jsStartsWith b p = false := by
  intro b hb
  unfold addDefault at hb
  by_cases h : args.any (fun a => jsStartsWith a q) = true
  · rw [if_pos h] at hb
    exact hinv b hb
  · rw [if_neg h] at hb
    rcases List.mem_append.1 hb with hba | hbe
    · exact hinv b hba
    · have : b = e := by simpa using hbe
      rw [this]
      exact he

theorem addDefault_preserves_userOnly (args : List String) (q e p : String)
    (user : List String)
    (hsub : ∀ a ∈ user, a ∈ args)
    (huser : ∃ a ∈ user, jsStartsWith a p = true)
    (hinv : ∀ b ∈ args, jsStartsWith b p = true → b ∈ user)
    (hqe : q = p ∨ jsStartsWith e p = false) :
    (∀ a ∈ user, a ∈ addDefault args q e) ∧
    (∀ b ∈ addDefault args q e, jsStartsWith b p = true → b ∈ user) := by
  unfold addDefault
  by_cases h : args.any (fun a => jsStartsWith a q) = true
  · rw [if_pos h]
    exact ⟨hsub, hinv⟩
  · rw [if_neg h]
    constructor
    · intro a ha
      exact List.mem_append_left _ (hsub a ha)
    · intro b hb hbp
      rcases List.mem_append.1 hb with hba | hbe
      · exact hinv b hba hbp
      · have hbe' : b = e := by simpa using hbe
        rcases hqe with hq | hef
        · exfalso
          obtain ⟨a, hau, hap⟩ := huser
          apply h
          refine List.any_eq_true.2 ⟨a, hsub a hau, ?_⟩
          rw [hq]
          exact hap
        · rw [hbe', hef] at hbp
          cases hbp

theorem addDefaults_userOnly (p : String) (user : List String) :
    ∀ (pairs : List (String × String)) (args : List String),
      (∀ a ∈ user, a ∈ args) →
      (∃ a ∈ user, jsStartsWith a p = true) →
      (∀ b ∈ args, jsStartsWith b p = true → b ∈ user) →
      (∀ pd ∈ pairs, pd.1 = p ∨ jsStartsWith pd.2 p = false) →
      (∀ a ∈ user, a ∈ addDefaults args pairs) ∧
      (∀ b ∈ addDefaults args pairs, jsStartsWith b p = true → b ∈ user) := by
  intro pairs
  induction pairs with
  | nil =>
    intro args h1 _ h3 _
    exact ⟨h1, h3⟩
  | cons pd rest ih =>
    intro args h1 h2 h3 h4
    have hstep := addDefault_preserves_userOnly args pd.1 pd.2 p user h1 h2 h3
      (h4 pd (List.mem_cons_self _ _))
    dsimp only [addDefaults, List.foldl_cons]
    exact ih (addDefault args pd.1 pd.2) hstep.1 h2 hstep.2
      (fun q hq => h4 q (List.mem_cons_of_mem _ hq))

theorem mem_addDefaults_of_mem (b : String) :
    ∀ (pairs : List (String × String)) (args : List String),
      b ∈ args → b ∈ addDefaults args pairs := by
  intro pairs
  induction pairs with
  | nil =>
    intro args hb
    exact hb
  | cons pd rest ih =>
    intro args hb
    dsimp only [addDefaults, List.foldl_cons]
    exact ih (addDefault args pd.1 pd.2) (mem_addDefault_of_mem args pd.1 pd.2 b hb)

theorem addDefaults_mem (p d : String) :
    ∀ (pairs : List (String × String)) (args : List String),
      (∀ b ∈ args, jsStartsWith b p = false) →
      (p, d) ∈ pairs →
      (∀ pd ∈ pairs, pd = (p, d) ∨ jsStartsWith pd.2 p = false) →
      d ∈ addDefaults args pairs := by
  intro pairs
  induction pairs with
  | nil =>
    intro args _ hm _
    cases hm
  | cons pd0 rest ih =>
    intro args hQ hm hside
    by_cases h0 : pd0 = (p, d)
    · subst h0
      dsimp only [addDefaults, List.foldl_cons]
      refine mem_addDefaults_of_mem d rest (addDefault args p d) ?_
      rw [addDefault_appends args p d hQ]
      exact List.mem_append_right _ (List.mem_singleton.2 rfl)
    · have hf : jsStartsWith pd0.2 p = false := by
        rcases hside pd0 (List.mem_cons_self _ _) with he | hf
        · exact absurd he h0
        · exact hf
      have hm' : (p, d) ∈ rest := by
        rcases List.mem_cons.1 hm with he | h
        · exact absurd he.symm h0
        · exact h
      dsimp only [addDefaults, List.foldl_cons]
      exact ih (addDefault args pd0.1 pd0.2)
        (addDefault_preserves_nostart args pd0.1 pd0.2 p hQ hf) hm'
        (fun q hq => hside q (List.mem_cons_of_mem _ hq))

theorem addDefaults_extends :
    ∀ (pairs : List (String × String)) (args : List String),
      ∃ rest, addDefaults args pairs = args ++ rest := by
  intro pairs
  induction pairs with
  | nil =>
    intro args
    exact ⟨[], (List.append_nil args).symm⟩
  | cons pd rest ih =>
    intro args
    obtain ⟨r2, h2⟩ := ih (addDefault args pd.1 pd.2)
    obtain ⟨r1, h1⟩ := addDefault_append_eq args pd.1 pd.2
    refine ⟨r1 ++ r2, ?_⟩
    show addDefaults (addDefault args pd.1 pd.2) rest = args ++ (r1 ++ r2)
    rw [h2, h1, List.append_assoc]

theorem generateClangdArgs_eq_chain (isChromiumProject : Bool)
    (compileCommandsPath clangdArgsEnv clangdLogLevelEnv : Option String) :
    generateClangdArgs isChromiumProject compileCommandsPath clangdArgsEnv
        clangdLogLevelEnv =
      addDefaults (userArgs clangdArgsEnv ++ ccDirArgs compileCommandsPath)
        (defaultArgPairs (effectiveLogLevel clangdLogLevelEnv)) := by
  cases compileCommandsPath <;> cases clangdArgsEnv <;>
    simp [generateClangdArgs, userArgs, ccDirArgs, addDefaults, defaultArgPairs,
      effectiveLogLevel]

/-- Claim C10: `generateClangdArgs` preserves every user-supplied
`CLANGD_ARGS` argument unchanged at the front of the result, and for each of
the six flag/default pairs — `--background-index=false`,
`--limit-references=1000`, `--limit-results=1000`, `--pch-storage=memory`,
`--clang-tidy=false`, `--log=<CLANGD_LOG_LEVEL or error>` — it appends the
default exactly when no user argument already starts with the flag prefix;
in particular an explicit user setting such as `--background-index=true` is
never overridden. -/
theorem C10_generateClangdArgs_defaults (isChromiumProject : Bool)
    (compileCommandsPath clangdArgsEnv clangdLogLevelEnv : Option String) :
    (∃ rest, generateClangdArgs isChromiumProject compileCommandsPath clangdArgsEnv
        clangdLogLevelEnv = userArgs clangdArgsEnv ++ rest) ∧
    (∀ p d, (p, d) ∈ defaultArgPairs (effectiveLogLevel clangdLogLevelEnv) →
      ((∃ a ∈ userArgs clangdArgsEnv, jsStartsWith a p = true) →
        ∀ b ∈ generateClangdArgs isChromiumProject compileCommandsPath clangdArgsEnv
          clangdLogLevelEnv, jsStartsWith b p = true → b ∈ userArgs clangdArgsEnv) ∧
      ((∀ a ∈ userArgs clangdArgsEnv, jsStartsWith a p = false) →
        d ∈ generateClangdArgs isChromiumProject compileCommandsPath clangdArgsEnv
          clangdLogLevelEnv)) := by
  rw [generateClangdArgs_eq_chain]
  constructor
  · obtain ⟨rest, hr⟩ := addDefaults_extends
      (defaultArgPairs (effectiveLogLevel clangdLogLevelEnv))
      (userArgs clangdArgsEnv ++ ccDirArgs compileCommandsPath)
    exact ⟨ccDirArgs compileCommandsPath ++ rest, by rw [hr, List.append_assoc]⟩
  · intro p d hpd
    have hsides : (∀ pd ∈ defaultArgPairs (effectiveLogLevel clangdLogLevelEnv),
          pd.1 = p ∨ jsStartsWith pd.2 p = false) ∧
        (∀ pd ∈ defaultArgPairs (effectiveLogLevel clangdLogLevelEnv),
          pd = (p, d) ∨ jsStartsWith pd.2 p = false) ∧
        (∀ b ∈ ccDirArgs compileCommandsPath, jsStartsWith b p = false) := by
      simp only [defaultArgPairs, List.mem_cons, List.not_mem_nil, or_false] at hpd
      rcases hpd with h|h|h|h|h|h <;>
        (injection h with hp hd; subst hp; subst hd) <;>
        refine ⟨?_, ?_, ccDirArgs_no_flag _ _ (by decide) (by decide)⟩ <;>
        intro pd hpd2 <;>
        simp only [defaultArgPairs, List.mem_cons, List.not_mem_nil, or_false] at hpd2 <;>
        rcases hpd2 with rfl|rfl|rfl|rfl|rfl|rfl <;>
        first
          | exact Or.inl rfl
          | exact Or.inr (by decide)
          | exact Or.inr (log_default_no_flag _ _ (by decide) (by decide))
    constructor
    · intro huser
      have hbase_sub : ∀ a ∈ userArgs clangdArgsEnv,
          a ∈ userArgs clangdArgsEnv ++ ccDirArgs compileCommandsPath :=
        fun a ha => List.mem_append_left _ ha
      have hbase_inv : ∀ b ∈ userArgs clangdArgsEnv ++ ccDirArgs compileCommandsPath,
          jsStartsWith b p = true → b ∈ userArgs clangdArgsEnv := by
        intro b hb hbp
        rcases List.mem_append.1 hb with hbu | hbc
        · exact hbu
        · rw [hsides.2.2 b hbc] at hbp
          cases hbp
      exact (addDefaults_userOnly p (userArgs clangdArgsEnv) _ _
        hbase_sub huser hbase_inv hsides.1).2
    · intro hnone
      have hbaseQ : ∀ b ∈ userArgs clangdArgsEnv ++ ccDirArgs compileCommandsPath,
          jsStartsWith b p = false := by
        intro b hb
        rcases List.mem_append.1 hb with hbu | hbc
        · exact hnone b hbu
        · exact hsides.2.2 b hbc
      exact addDefaults_mem p d _ _ hbaseQ hpd hsides.2.1

/-- Witness for C10: with `CLANGD_ARGS="--background-index=true"`, the user
argument survives, `--background-index=false` is not appended, and
`--limit-results=1000` (whose prefix no user argument carries) is. -/
theorem C10_generateClangdArgs_defaults_witness :
    ("--background-index", "--background-index=false")
        ∈ defaultArgPairs (effectiveLogLevel none) ∧
    ("--limit-results", "--limit-results=1000")
        ∈ defaultArgPairs (effectiveLogLevel none) ∧
    (∃ a ∈ userArgs (some "--background-index=true"),
        jsStartsWith a "--background-index" = true) ∧
    (∀ a ∈ userArgs (some "--background-index=true"),
        jsStartsWith a "--limit-results" = false) ∧
    (∀ b ∈ generateClangdArgs false none (some "--background-index=true") none,
        jsStartsWith b "--background-index" = true →
          b ∈ userArgs (some "--background-index=true")) ∧
    "--limit-results=1000" ∈ generateClangdArgs false none
        (some "--background-index=true") none :=
  ⟨by decide, by decide, by decide, by decide,
    ((C10_generateClangdArgs_defaults false none (some "--background-index=true")
        none).2 "--background-index" "--background-index=false" (by decide)).1
      (by decide),
    ((C10_generateClangdArgs_defaults false none (some "--background-index=true")
        none).2 "--limit-results" "--limit-results=1000" (by decide)).2
      (by decide)⟩

end ClangdMcp
